import Mathlib

/-! Lottery winners calculator (`divi/src/LotteryWinnersCalculator.cpp`).

A shallow embedding of `LotteryWinnersCalculator` and a verification of its
ranking / state-update algorithm.

Conventions of the embedding:

* `uint256` values (transaction ids, block hashes, scores) are natural numbers;
  only equality and the numeric order on them are used by the code.
* `int` and `CAmount` (`int64_t`) values are integers; arithmetic that can leave
  the machine range is wrapped explicitly (`wrapInt32`, `wrapInt64`).
* Undefined behaviour of the C++ code (indexing `vout` out of bounds, division by
  zero, dereferencing the null pointer returned by `activeChain_[h]`) is the
  result `none`.
* The collaborators of the class (chain, spork manager, superblock height
  validator, hash writer, adjusted clock) are fields of `LotteryWinnersCalculator`.
-/

namespace Divi

/-! ## Data model -/

/-- A 256-bit hash, compared numerically. -/
abbrev uint256 := Nat

/-- A script, as its bytes. -/
abbrev CScript := List Nat

/-- An amount in the smallest unit (`int64_t`). -/
abbrev CAmount := Int

/-- Modelled from the spec: the constant `COIN` (declared in a header that is not
under `src/`), the number of smallest units per coin, `100_000_000`. -/
def COIN : CAmount := 100000000

/-- Two's complement wrap-around of a 64-bit signed integer. -/
def wrapInt64 (x : Int) : Int := (x + 2 ^ 63) % 2 ^ 64 - 2 ^ 63

/-- Two's complement wrap-around of a 32-bit signed integer. -/
def wrapInt32 (x : Int) : Int := (x + 2 ^ 31) % 2 ^ 32 - 2 ^ 31

/-- The value lies in the range of a 64-bit signed integer. -/
def inInt64 (x : Int) : Prop := -(2 ^ 63) ≤ x ∧ x < 2 ^ 63

instance (x : Int) : Decidable (inInt64 x) := by unfold inInt64; infer_instance

/-- The value lies in the range of a 32-bit signed integer (`int`). -/
def inInt32 (x : Int) : Prop := -(2 ^ 31) ≤ x ∧ x < 2 ^ 31

instance (x : Int) : Decidable (inInt32 x) := by unfold inInt32; infer_instance

/-- A transaction output: the fields of `CTxOut` read by the calculator. -/
structure CTxOut where
  nValue : CAmount
  scriptPubKey : CScript
deriving DecidableEq, Repr

/-- A transaction, as observed by the calculator: `GetHash()`, `IsCoinBase()` and
`vout` (the class is declared in `primitives/transaction.h`). -/
structure CTransaction where
  GetHash : uint256
  IsCoinBase : Bool
  vout : List CTxOut
deriving DecidableEq, Repr

/-- A lottery coinstake: `std::pair<uint256, CScript>`, transaction id first. -/
abbrev LotteryCoinstake := uint256 × CScript

/-- The ranked coinstakes: `std::vector<LotteryCoinstake>`. -/
abbrev LotteryCoinstakes := List LotteryCoinstake

/-- Modelled from the spec: the ranked lottery state `LotteryCoinstakeData`
(its class is declared in a header that is not under `src/`): the height at
which the content last changed and the ordered entries. A shallow copy shares
the entries and keeps the height, so it is the value itself. -/
structure LotteryCoinstakeData where
  height : Int
  coinstakes : LotteryCoinstakes
deriving DecidableEq, Repr

/-- Modelled from the spec: `getShallowCopy()` of `LotteryCoinstakeData`, the
previous state unchanged (same content, same height stamp). -/
def LotteryCoinstakeData.getShallowCopy (d : LotteryCoinstakeData) : LotteryCoinstakeData := d

/-- Modelled from the spec: `getLotteryCoinstakes()` of `LotteryCoinstakeData`,
the entries of the state. -/
def LotteryCoinstakeData.getLotteryCoinstakes (d : LotteryCoinstakeData) : LotteryCoinstakes :=
  d.coinstakes

/-- A block index entry of the active chain: the fields read by the calculator. -/
structure CBlockIndex where
  nTime : Int
  GetBlockHash : uint256
deriving DecidableEq, Repr

/-- The value selected by `CSporkManager::GetActiveMultiValueSpork`: whether it is
valid (`IsValid()`) and its ticket value in coins. -/
structure LotteryTicketMinValueSporkValue where
  IsValid : Bool
  nEntryTicketValue : Int
deriving DecidableEq, Repr

/-- The calculator with a snapshot of everything it reads.

* `startOfLotteryBlocks_`: the activation height (constructor argument);
* `activeChain_ h`: `activeChain_[h]`, `none` for the null pointer;
* `IsSporkActive`: `sporkManager_.IsSporkActive(SPORK_16_LOTTERY_TICKET_MIN_VALUE)`;
* `GetActiveMultiValueSpork h t`: the entry selected among the values of that
  spork for height `h` and block time `t`;
* `GetAdjustedTime`: the node's adjusted clock at the time of the call;
* `GetLotteryBlockPaymentCycle`, `IsValidLotteryBlockHeight`: the superblock
  height validator;
* `Hash a b`: the hash writer applied to `a` followed by `b`;
* `defaultHeight`: the height stamp of a default-constructed
  `LotteryCoinstakeData` (its constructor is not under `src/`). -/
structure LotteryWinnersCalculator where
  startOfLotteryBlocks_ : Int
  activeChain_ : Int → Option CBlockIndex
  IsSporkActive : Bool
  GetActiveMultiValueSpork : Int → Int → LotteryTicketMinValueSporkValue
  GetAdjustedTime : Int
  GetLotteryBlockPaymentCycle : Int → Int
  IsValidLotteryBlockHeight : Int → Bool
  Hash : uint256 → uint256 → uint256
  defaultHeight : Int

/-! ## Operations -/

/-- Source: `minimumCoinstakeForTicket`. The default of 10000 coins unless the
spork is active and selects a valid entry. -/
def minimumCoinstakeForTicket (c : LotteryWinnersCalculator) (nHeight : Int) : Int :=
  if c.IsSporkActive then
    let nBlockTime :=
      match c.activeChain_ nHeight with
      | some idx => idx.nTime
      | none => c.GetAdjustedTime
    let activeSpork := c.GetActiveMultiValueSpork nHeight nBlockTime
    if activeSpork.IsValid then activeSpork.nEntryTicketValue else 10000
  else 10000

/-- Source: `CalculateLotteryScore`, the hash of the transaction id followed by
the hash of the last lottery block. -/
def CalculateLotteryScore (c : LotteryWinnersCalculator)
    (hashCoinbaseTx hashLastLotteryBlock : uint256) : uint256 :=
  c.Hash hashCoinbaseTx hashLastLotteryBlock

/-- The `std::accumulate` of `IsCoinstakeValidForLottery`: a left fold over the
outputs that adds, in 64-bit arithmetic, the values paid to `payee`. -/
def accumulatePayee (payee : CScript) (vout : List CTxOut) : CAmount :=
  vout.foldl
    (fun accum out => if out.scriptPubKey = payee then wrapInt64 (accum + out.nValue) else accum) 0

/-- Source: `IsCoinstakeValidForLottery`. The product of an `int` and `COIN` fits
in 64 bits, so it is not wrapped. -/
def IsCoinstakeValidForLottery (c : LotteryWinnersCalculator) (tx : CTransaction)
    (nHeight : Int) : Option Bool :=
  if tx.IsCoinBase then
    match tx.vout[0]? with
    | none => none
    | some out0 => some (decide (out0.nValue > minimumCoinstakeForTicket c nHeight * COIN))
  else
    match tx.vout[1]? with
    | none => none
    | some out1 =>
      some (decide (accumulatePayee out1.scriptPubKey tx.vout
        > minimumCoinstakeForTicket c nHeight * COIN))

/-- The local `nLastLotteryHeight` of `GetLastLotteryBlockHashBeforeHeight`,
computed in 32-bit arithmetic with truncating division. -/
def nLastLotteryHeight (c : LotteryWinnersCalculator) (blockHeight : Int) : Option Int :=
  let lotteryBlockPaymentCycle := c.GetLotteryBlockPaymentCycle blockHeight
  if lotteryBlockPaymentCycle = 0 then none
  else
    some (max c.startOfLotteryBlocks_
      (wrapInt32 (lotteryBlockPaymentCycle *
        wrapInt32 (Int.tdiv (wrapInt32 (blockHeight - 1)) lotteryBlockPaymentCycle))))

/-- Source: `GetLastLotteryBlockHashBeforeHeight`. -/
def GetLastLotteryBlockHashBeforeHeight (c : LotteryWinnersCalculator) (blockHeight : Int) :
    Option uint256 :=
  match nLastLotteryHeight c blockHeight with
  | none => none
  | some h =>
    match c.activeChain_ h with
    | none => none
    | some idx => some idx.GetBlockHash

/-- The local struct `RankAwareScore` of `UpdateCoinstakes`. -/
structure RankAwareScore where
  score : uint256
  rank : Nat
deriving DecidableEq, Repr

/-- The `std::map<uint256, RankAwareScore>`, as its key/value pairs. -/
abbrev RankMap := List (uint256 × RankAwareScore)

/-- Lookup `m[key]`; a missing key reads as the value-initialised entry. -/
def RankMap.at (m : RankMap) (key : uint256) : RankAwareScore :=
  match m.find? (fun kv => kv.1 == key) with
  | some kv => kv.2
  | none => ⟨0, 0⟩

/-- The member `emplace` of `std::map`: inserts only when the key is absent. -/
def RankMap.emplace (m : RankMap) (key : uint256) (v : RankAwareScore) : RankMap :=
  if m.any (fun kv => kv.1 == key) then m else m ++ [(key, v)]

/-- The first loop of `UpdateCoinstakes`: every entry is emplaced with its score
and the size of the map at that moment as its rank. -/
def rankedScoreAwareCoinstakes (c : LotteryWinnersCalculator) (lastLotteryBlockHash : uint256)
    (updatedCoinstakes : LotteryCoinstakes) : RankMap :=
  updatedCoinstakes.foldl
    (fun m lotteryCoinstake =>
      m.emplace lotteryCoinstake.1
        ⟨CalculateLotteryScore c lotteryCoinstake.1 lastLotteryBlockHash, m.length⟩) []

/-- The algorithm `std::stable_sort` with the strict comparator `comp`: an
insertion sort that places an element in front of the first one it is not
preceded by, so equivalent elements keep their order. -/
def stable_sort {α : Type} (comp : α → α → Bool) (l : List α) : List α :=
  l.insertionSort (fun a b => comp b a = false)

/-- Source: `UpdateCoinstakes`. Returns the flag and the sequence left in
`updatedCoinstakes`. The element `back()` is read only when the map has more
than one key, where the sequence is not empty, so the `none` case of the match
is never taken. -/
def UpdateCoinstakes (c : LotteryWinnersCalculator) (lastLotteryBlockHash : uint256)
    (updatedCoinstakes : LotteryCoinstakes) : Bool × LotteryCoinstakes :=
  let m := rankedScoreAwareCoinstakes c lastLotteryBlockHash updatedCoinstakes
  let sorted :=
    if m.length > 1 then
      stable_sort (fun lhs rhs => decide ((m.at lhs.1).score > (m.at rhs.1).score))
        updatedCoinstakes
    else updatedCoinstakes
  let shouldUpdateCoinstakeData :=
    if m.length > 1 then
      match sorted.getLast? with
      | some back => decide ((m.at back.1).rank ≠ 11)
      | none => true
    else true
  (shouldUpdateCoinstakeData, if sorted.length > 11 then sorted.dropLast else sorted)

/-- Source: `CalculateUpdatedLotteryWinners`. -/
def CalculateUpdatedLotteryWinners (c : LotteryWinnersCalculator)
    (coinMintTransaction : CTransaction)
    (previousBlockLotteryCoinstakeData : LotteryCoinstakeData) (nHeight : Int) :
    Option LotteryCoinstakeData :=
  if nHeight ≤ 0 then some ⟨c.defaultHeight, []⟩
  else if c.IsValidLotteryBlockHeight nHeight then some ⟨nHeight, []⟩
  else if nHeight ≤ c.startOfLotteryBlocks_ then
    some previousBlockLotteryCoinstakeData.getShallowCopy
  else
    match IsCoinstakeValidForLottery c coinMintTransaction nHeight with
    | none => none
    | some false => some previousBlockLotteryCoinstakeData.getShallowCopy
    | some true =>
      match GetLastLotteryBlockHashBeforeHeight c nHeight with
      | none => none
      | some hashLastLotteryBlock =>
        match (if coinMintTransaction.IsCoinBase then coinMintTransaction.vout[0]?
               else coinMintTransaction.vout[1]?) with
        | none => none
        | some payee =>
          let updatedCoinstakes :=
            previousBlockLotteryCoinstakeData.getLotteryCoinstakes
              ++ [(coinMintTransaction.GetHash, payee.scriptPubKey)]
          let r := UpdateCoinstakes c hashLastLotteryBlock updatedCoinstakes
          if r.1 then some ⟨nHeight, r.2⟩
          else some previousBlockLotteryCoinstakeData.getShallowCopy

/-! ## Auxiliary notions used in the statements -/

/-- The first loop of `UpdateCoinstakes` started from a map `m`. -/
def emplaceFrom (c : LotteryWinnersCalculator) (lastLotteryBlockHash : uint256)
    (m : RankMap) (l : LotteryCoinstakes) : RankMap :=
  l.foldl
    (fun m lotteryCoinstake =>
      m.emplace lotteryCoinstake.1
        ⟨CalculateLotteryScore c lotteryCoinstake.1 lastLotteryBlockHash, m.length⟩) m

/-- The score of an entry against a seed. -/
def entryScore (c : LotteryWinnersCalculator) (seed : uint256) (e : LotteryCoinstake) : uint256 :=
  CalculateLotteryScore c e.1 seed

/-- The stable rearrangement of a sequence by descending score. -/
def sortByScore (c : LotteryWinnersCalculator) (seed : uint256) (l : LotteryCoinstakes) :
    LotteryCoinstakes :=
  stable_sort (fun lhs rhs => decide (entryScore c seed lhs > entryScore c seed rhs)) l

/-- The order of the ranking: `a` may stand before `b` when its score is not lower. -/
def scoreGE (c : LotteryWinnersCalculator) (seed : uint256) (a b : LotteryCoinstake) : Prop :=
  entryScore c seed b ≤ entryScore c seed a

instance (c : LotteryWinnersCalculator) (seed : uint256) : DecidableRel (scoreGE c seed) :=
  fun a b => inferInstanceAs (Decidable (entryScore c seed b ≤ entryScore c seed a))

instance (c : LotteryWinnersCalculator) (seed : uint256) :
    IsTotal LotteryCoinstake (scoreGE c seed) :=
  ⟨fun a b => Nat.le_total (entryScore c seed b) (entryScore c seed a)⟩

instance (c : LotteryWinnersCalculator) (seed : uint256) :
    IsTrans LotteryCoinstake (scoreGE c seed) :=
  ⟨fun _ _ _ hab hbc => Nat.le_trans hbc hab⟩

/-- The sum of the values of the outputs of `outs` whose script is `payee`, as an
integer without bound. -/
def payeeSum (payee : CScript) (outs : List CTxOut) : Int :=
  ((outs.filter (fun o => decide (o.scriptPubKey = payee))).map (fun o => o.nValue)).sum

/-- The payout amount of a transaction as the spec words it: the value of the
first output for a coinbase, otherwise the sum of the values of all outputs whose
script equals the script of the second output. -/
def payoutAmount (tx : CTransaction) : Option Int :=
  if tx.IsCoinBase then tx.vout[0]?.map (fun o => o.nValue)
  else tx.vout[1]?.map (fun p => payeeSum p.scriptPubKey tx.vout)

/-- The state machine of section 4.6 of the spec without the update-skip of its
rationale: in the ranking step it always materialises the truncated ranking as
`{height, rankedEntries}`, whatever `shouldUpdate` says. It is the comparison
point for `CalculateUpdatedLotteryWinners`. -/
def CalculateUpdatedLotteryWinnersMaterialised (c : LotteryWinnersCalculator)
    (coinMintTransaction : CTransaction)
    (previousBlockLotteryCoinstakeData : LotteryCoinstakeData) (nHeight : Int) :
    Option LotteryCoinstakeData :=
  if nHeight ≤ 0 then some ⟨c.defaultHeight, []⟩
  else if c.IsValidLotteryBlockHeight nHeight then some ⟨nHeight, []⟩
  else if nHeight ≤ c.startOfLotteryBlocks_ then some previousBlockLotteryCoinstakeData
  else
    match IsCoinstakeValidForLottery c coinMintTransaction nHeight with
    | none => none
    | some false => some previousBlockLotteryCoinstakeData
    | some true =>
      match GetLastLotteryBlockHashBeforeHeight c nHeight with
      | none => none
      | some seed =>
        match (if coinMintTransaction.IsCoinBase then coinMintTransaction.vout[0]?
               else coinMintTransaction.vout[1]?) with
        | none => none
        | some payee =>
          some ⟨nHeight, (UpdateCoinstakes c seed
            (previousBlockLotteryCoinstakeData.coinstakes
              ++ [(coinMintTransaction.GetHash, payee.scriptPubKey)])).2⟩

/-- The states reachable from an empty state by repeated calls of
`CalculateUpdatedLotteryWinners`, each with its own transaction, height and
snapshot of the collaborators. -/
inductive Reachable : LotteryCoinstakeData → Prop
  | empty (h : Int) : Reachable ⟨h, []⟩
  | step {s s1 : LotteryCoinstakeData} (c : LotteryWinnersCalculator) (tx : CTransaction)
      (h : Int) : Reachable s → CalculateUpdatedLotteryWinners c tx s h = some s1 → Reachable s1

/-! ## A concrete calculator used in the examples

The score of a transaction id is the id itself, the chain has a block at every
height from 0 to 1000, the cycle is 10 blocks long, lottery blocks are the
positive multiples of 10 and the lottery starts at height 100. -/

/-- The example calculator. -/
def exampleCalculator : LotteryWinnersCalculator where
  startOfLotteryBlocks_ := 100
  activeChain_ := fun h => if 0 ≤ h ∧ h ≤ 1000 then some ⟨1600000000 + h, 7⟩ else none
  IsSporkActive := false
  GetActiveMultiValueSpork := fun _ _ => ⟨false, 0⟩
  GetAdjustedTime := 1700000000
  GetLotteryBlockPaymentCycle := fun _ => 10
  IsValidLotteryBlockHeight := fun h => decide (h % 10 = 0)
  Hash := fun a _ => a
  defaultHeight := 0

/-- A coinstake whose two payee outputs of `2 ^ 62` units each add up to `2 ^ 63`,
one more than the largest 64-bit signed integer. -/
def overflowCoinstake : CTransaction :=
  ⟨77, false, [⟨0, []⟩, ⟨2 ^ 62, [99]⟩, ⟨2 ^ 62, [99]⟩]⟩

/-- The example calculator with a score function that has ties: the score of a
transaction id is half the id, rounded down. -/
def tieCalculator : LotteryWinnersCalculator :=
  { exampleCalculator with Hash := fun a _ => a / 2 }

/-- Twelve entries with pairwise distinct ids whose scores against `tieCalculator`
are 50, 45, 40, 35, 30, 25, 20, 15, 10, 8, 5 and, for the last entry, 5 again. -/
def tieSequence : LotteryCoinstakes :=
  [(100, [1]), (90, [2]), (80, [3]), (70, [4]), (60, [5]), (50, [6]), (40, [7]),
    (30, [8]), (20, [9]), (16, [10]), (10, [11]), (11, [12])]

/-- A calculator whose ticket-minimum spork is active and selects 10000 coins for
block times before 1750000000 and 20000 coins from then on; its chain ends at
height 124, so the block at height 125 is the one being connected. Only the
adjusted clock is left open. -/
def sporkCalculator (adjustedTime : Int) : LotteryWinnersCalculator where
  startOfLotteryBlocks_ := 100
  activeChain_ := fun h => if 0 ≤ h ∧ h ≤ 124 then some ⟨1600000000 + h, 7⟩ else none
  IsSporkActive := true
  GetActiveMultiValueSpork := fun _ t => if t < 1750000000 then ⟨true, 10000⟩ else ⟨true, 20000⟩
  GetAdjustedTime := adjustedTime
  GetLotteryBlockPaymentCycle := fun _ => 10
  IsValidLotteryBlockHeight := fun h => decide (h % 10 = 0)
  Hash := fun a _ => a
  defaultHeight := 0

/-- A previous state with the 11 scores 100, 90, ..., 10, 5, stamped at 120. -/
def examplePrevious : LotteryCoinstakeData :=
  ⟨120, [(100, [1]), (90, [2]), (80, [3]), (70, [4]), (60, [5]), (50, [6]), (40, [7]),
    (30, [8]), (20, [9]), (10, [10]), (5, [11])]⟩

/-- An eligible coinstake transaction with the given id, paying `[99]`. -/
def exampleCoinstake (id : uint256) : CTransaction :=
  ⟨id, false, [⟨0, []⟩, ⟨1000000000001, [99]⟩]⟩

/-! ## The rank map -/

theorem RankMap.any_key_iff (m : RankMap) (k : uint256) :
    m.any (fun kv => kv.1 == k) = true ↔ k ∈ m.map Prod.fst := by
  simp [List.any_eq_true]

theorem RankMap.emplace_of_mem (m : RankMap) (k : uint256) (v : RankAwareScore)
    (h : k ∈ m.map Prod.fst) : m.emplace k v = m := by
  unfold RankMap.emplace
  rw [if_pos ((RankMap.any_key_iff m k).2 h)]

theorem RankMap.emplace_of_not_mem (m : RankMap) (k : uint256) (v : RankAwareScore)
    (h : k ∉ m.map Prod.fst) : m.emplace k v = m ++ [(k, v)] := by
  unfold RankMap.emplace
  rw [if_neg (fun h1 => h ((RankMap.any_key_iff m k).1 h1))]

theorem RankMap.at_append_of_mem (m m1 : RankMap) (k : uint256) (h : k ∈ m.map Prod.fst) :
    RankMap.at (m ++ m1) k = RankMap.at m k := by
  unfold RankMap.at
  rw [List.find?_append]
  obtain ⟨kv, hkv, hk⟩ := List.mem_map.1 h
  cases hf : List.find? (fun kv => kv.1 == k) m with
  | none =>
    exfalso
    have := List.find?_eq_none.1 hf kv hkv
    simp [hk] at this
  | some x => simp

theorem RankMap.at_append_of_not_mem (m m1 : RankMap) (k : uint256) (h : k ∉ m.map Prod.fst) :
    RankMap.at (m ++ m1) k = RankMap.at m1 k := by
  unfold RankMap.at
  rw [List.find?_append]
  have hf : List.find? (fun kv => kv.1 == k) m = none := by
    apply List.find?_eq_none.2
    intro kv hkv hk
    apply h
    exact List.mem_map.2 ⟨kv, hkv, by simpa using hk⟩
  simp [hf]

theorem RankMap.at_singleton (k : uint256) (v : RankAwareScore) :
    RankMap.at [(k, v)] k = v := by
  simp [RankMap.at]

theorem rankedScoreAwareCoinstakes_eq (c : LotteryWinnersCalculator) (seed : uint256)
    (l : LotteryCoinstakes) :
    rankedScoreAwareCoinstakes c seed l = emplaceFrom c seed [] l := rfl

theorem emplaceFrom_nil (c : LotteryWinnersCalculator) (seed : uint256) (m : RankMap) :
    emplaceFrom c seed m [] = m := rfl

theorem emplaceFrom_cons (c : LotteryWinnersCalculator) (seed : uint256) (m : RankMap)
    (e : LotteryCoinstake) (l : LotteryCoinstakes) :
    emplaceFrom c seed m (e :: l)
      = emplaceFrom c seed (m.emplace e.1 ⟨CalculateLotteryScore c e.1 seed, m.length⟩) l := rfl

/-- Keys already in the map stay, and every emplaced id is a key afterwards. -/
theorem emplaceFrom_keys (c : LotteryWinnersCalculator) (seed : uint256)
    (l : LotteryCoinstakes) : ∀ (m : RankMap) (k : uint256),
    k ∈ (emplaceFrom c seed m l).map Prod.fst ↔ k ∈ m.map Prod.fst ∨ k ∈ l.map Prod.fst := by
  induction l with
  | nil => intro m k; simp [emplaceFrom_nil]
  | cons e l ih =>
    intro m k
    rw [emplaceFrom_cons, ih]
    by_cases he : e.1 ∈ m.map Prod.fst
    · rw [RankMap.emplace_of_mem m _ _ he]
      constructor
      · rintro (h | h)
        · exact Or.inl h
        · exact Or.inr (by simp only [List.map_cons, List.mem_cons]; exact Or.inr h)
      · rintro (h | h)
        · exact Or.inl h
        · simp only [List.map_cons, List.mem_cons] at h
          rcases h with h | h
          · exact Or.inl (h ▸ he)
          · exact Or.inr h
    · rw [RankMap.emplace_of_not_mem m _ _ he]
      simp only [List.map_append, List.map_cons, List.map_nil, List.mem_append,
        List.mem_singleton, List.mem_cons]
      tauto

/-- The lookup of a key already in the map is not changed by later emplacements. -/
theorem emplaceFrom_at_of_mem (c : LotteryWinnersCalculator) (seed : uint256)
    (l : LotteryCoinstakes) : ∀ (m : RankMap) (k : uint256), k ∈ m.map Prod.fst →
    RankMap.at (emplaceFrom c seed m l) k = RankMap.at m k := by
  induction l with
  | nil => intro m k _; rfl
  | cons e l ih =>
    intro m k hk
    rw [emplaceFrom_cons]
    by_cases he : e.1 ∈ m.map Prod.fst
    · rw [RankMap.emplace_of_mem m _ _ he]
      exact ih m k hk
    · rw [RankMap.emplace_of_not_mem m _ _ he, ih _ k (by simp [hk]),
        RankMap.at_append_of_mem _ _ _ hk]

/-- Every value of the map holds the score of its key. -/
theorem emplaceFrom_score (c : LotteryWinnersCalculator) (seed : uint256)
    (l : LotteryCoinstakes) : ∀ (m : RankMap),
    (∀ kv ∈ m, kv.2.score = CalculateLotteryScore c kv.1 seed) →
    ∀ kv ∈ emplaceFrom c seed m l, kv.2.score = CalculateLotteryScore c kv.1 seed := by
  induction l with
  | nil => intro m hm; exact hm
  | cons e l ih =>
    intro m hm
    rw [emplaceFrom_cons]
    apply ih
    by_cases he : e.1 ∈ m.map Prod.fst
    · rw [RankMap.emplace_of_mem m _ _ he]; exact hm
    · rw [RankMap.emplace_of_not_mem m _ _ he]
      intro kv hkv
      rcases List.mem_append.1 hkv with h | h
      · exact hm kv h
      · rw [List.mem_singleton.1 h]

theorem RankMap.at_mem (m : RankMap) (k : uint256) (h : k ∈ m.map Prod.fst) :
    (k, RankMap.at m k) ∈ m := by
  unfold RankMap.at
  obtain ⟨kv, hkv, hk⟩ := List.mem_map.1 h
  cases hf : List.find? (fun kv => kv.1 == k) m with
  | none =>
    exfalso
    have := List.find?_eq_none.1 hf kv hkv
    simp [hk] at this
  | some x =>
    have h1 := List.mem_of_find?_eq_some hf
    have h2 := List.find?_some hf
    simp only [beq_iff_eq] at h2
    simp only
    rw [← h2]
    exact h1

/-- The map built by `UpdateCoinstakes` gives every entry of the sequence its
score against the seed. -/
theorem rankedScoreAwareCoinstakes_score (c : LotteryWinnersCalculator) (seed : uint256)
    (l : LotteryCoinstakes) (e : LotteryCoinstake) (he : e ∈ l) :
    (RankMap.at (rankedScoreAwareCoinstakes c seed l) e.1).score = entryScore c seed e := by
  have hk : e.1 ∈ (rankedScoreAwareCoinstakes c seed l).map Prod.fst := by
    rw [rankedScoreAwareCoinstakes_eq, emplaceFrom_keys]
    exact Or.inr (List.mem_map.2 ⟨e, he, rfl⟩)
  have hm := RankMap.at_mem _ _ hk
  have := emplaceFrom_score c seed l [] (by simp) _ hm
  simpa [entryScore] using this

/-- With at most one key in the map, all entries of the sequence have the same id. -/
theorem rankedScoreAwareCoinstakes_small (c : LotteryWinnersCalculator) (seed : uint256)
    (l : LotteryCoinstakes) (h : ¬ (rankedScoreAwareCoinstakes c seed l).length > 1)
    (a b : LotteryCoinstake) (ha : a ∈ l) (hb : b ∈ l) : a.1 = b.1 := by
  have hka : a.1 ∈ (rankedScoreAwareCoinstakes c seed l).map Prod.fst := by
    rw [rankedScoreAwareCoinstakes_eq, emplaceFrom_keys]
    exact Or.inr (List.mem_map.2 ⟨a, ha, rfl⟩)
  have hkb : b.1 ∈ (rankedScoreAwareCoinstakes c seed l).map Prod.fst := by
    rw [rankedScoreAwareCoinstakes_eq, emplaceFrom_keys]
    exact Or.inr (List.mem_map.2 ⟨b, hb, rfl⟩)
  generalize (rankedScoreAwareCoinstakes c seed l) = m at h hka hkb
  match m, h, hka, hkb with
  | [], _, hka, _ => simp at hka
  | [x], _, hka, hkb =>
    simp only [List.map_cons, List.map_nil, List.mem_singleton] at hka hkb
    rw [hka, hkb]
  | _ :: _ :: _, h, _, _ => simp at h

/-- With pairwise distinct ids that are not yet keys, the loop appends one entry
per element: the length grows by the length of the sequence. -/
theorem emplaceFrom_length_of_nodup (c : LotteryWinnersCalculator) (seed : uint256)
    (l : LotteryCoinstakes) : ∀ (m : RankMap),
    (l.map Prod.fst).Nodup → (∀ k ∈ l.map Prod.fst, k ∉ m.map Prod.fst) →
    (emplaceFrom c seed m l).length = m.length + l.length := by
  induction l with
  | nil => intro m _ _; simp [emplaceFrom_nil]
  | cons e l ih =>
    intro m hnd hdis
    rw [emplaceFrom_cons]
    have he : e.1 ∉ m.map Prod.fst := hdis e.1 (by simp)
    rw [RankMap.emplace_of_not_mem m _ _ he]
    simp only [List.map_cons, List.nodup_cons] at hnd
    rw [ih _ hnd.2]
    · simp only [List.length_append, List.length_cons, List.length_nil]; omega
    · intro k hk
      simp only [List.map_append, List.map_cons, List.map_nil, List.mem_append,
        List.mem_singleton, not_or]
      refine ⟨hdis k (by simp only [List.map_cons, List.mem_cons]; exact Or.inr hk), ?_⟩
      rintro rfl
      exact hnd.1 hk

/-- With pairwise distinct ids that are not yet keys, the rank recorded for an
id is the size of the initial map plus the position of the id. -/
theorem emplaceFrom_rank_of_nodup (c : LotteryWinnersCalculator) (seed : uint256)
    (l : LotteryCoinstakes) : ∀ (m : RankMap),
    (l.map Prod.fst).Nodup → (∀ k ∈ l.map Prod.fst, k ∉ m.map Prod.fst) →
    ∀ k ∈ l.map Prod.fst,
      (RankMap.at (emplaceFrom c seed m l) k).rank = m.length + (l.map Prod.fst).indexOf k := by
  induction l with
  | nil => intro m _ _ k hk; simp at hk
  | cons e l ih =>
    intro m hnd hdis k hk
    rw [emplaceFrom_cons]
    have he : e.1 ∉ m.map Prod.fst := hdis e.1 (by simp)
    rw [RankMap.emplace_of_not_mem m _ _ he]
    simp only [List.map_cons, List.nodup_cons] at hnd
    by_cases hke : k = e.1
    · subst hke
      rw [emplaceFrom_at_of_mem _ _ _ _ _ (by simp), RankMap.at_append_of_not_mem _ _ _ he,
        RankMap.at_singleton]
      simp
    · have hkl : k ∈ l.map Prod.fst := by
        simp only [List.map_cons, List.mem_cons] at hk
        rcases hk with h | h
        · exact absurd h hke
        · exact h
      rw [ih _ hnd.2 _ k hkl]
      · simp only [List.length_append, List.length_cons, List.length_nil, List.map_cons]
        rw [List.indexOf_cons_ne _ (fun h => hke h.symm)]
        omega
      · intro k1 hk1
        simp only [List.map_append, List.map_cons, List.map_nil, List.mem_append,
          List.mem_singleton, not_or]
        refine ⟨hdis k1 (by simp only [List.map_cons, List.mem_cons]; exact Or.inr hk1), ?_⟩
        rintro rfl
        exact hnd.1 hk1

/-! ## The stable sort -/

theorem orderedInsert_cons_eq {α : Type} (r : α → α → Prop) [DecidableRel r] (a b : α)
    (l : List α) :
    (b :: l).orderedInsert r a = if r a b then a :: b :: l else b :: l.orderedInsert r a := rfl

theorem orderedInsert_congr {α : Type} (r1 r2 : α → α → Prop) [DecidableRel r1]
    [DecidableRel r2] (a : α) (l : List α) (h : ∀ b ∈ l, (r1 a b ↔ r2 a b)) :
    l.orderedInsert r1 a = l.orderedInsert r2 a := by
  induction l with
  | nil => rfl
  | cons b l ih =>
    have hb := h b (List.mem_cons_self b l)
    have ih1 := ih (fun x hx => h x (List.mem_cons_of_mem b hx))
    by_cases hr : r1 a b
    · simp only [List.orderedInsert, if_pos hr, if_pos (hb.1 hr)]
    · simp only [List.orderedInsert, if_neg hr, if_neg (fun h2 => hr (hb.2 h2)), ih1]

theorem insertionSort_congr {α : Type} (r1 r2 : α → α → Prop) [DecidableRel r1]
    [DecidableRel r2] (l : List α) (h : ∀ a ∈ l, ∀ b ∈ l, (r1 a b ↔ r2 a b)) :
    l.insertionSort r1 = l.insertionSort r2 := by
  induction l with
  | nil => rfl
  | cons a l ih =>
    have ih1 := ih (fun x hx y hy => h x (List.mem_cons_of_mem a hx) y (List.mem_cons_of_mem a hy))
    rw [List.insertionSort_cons_eq_take_drop, List.insertionSort_cons_eq_take_drop]
    rw [← List.orderedInsert_eq_take_drop, ← List.orderedInsert_eq_take_drop, ih1]
    apply orderedInsert_congr
    intro b hb
    exact h a (List.mem_cons_self a l) b
      (List.mem_cons_of_mem a ((List.mem_insertionSort r2).1 hb))

theorem sortByScore_eq (c : LotteryWinnersCalculator) (seed : uint256) (l : LotteryCoinstakes) :
    sortByScore c seed l = l.insertionSort (scoreGE c seed) := by
  unfold sortByScore stable_sort
  apply insertionSort_congr
  intro a _ b _
  simp [scoreGE]

theorem sortByScore_nil (c : LotteryWinnersCalculator) (seed : uint256) :
    sortByScore c seed [] = [] := by
  rw [sortByScore_eq]; rfl

theorem sortByScore_cons (c : LotteryWinnersCalculator) (seed : uint256) (a : LotteryCoinstake)
    (l : LotteryCoinstakes) :
    sortByScore c seed (a :: l) = (sortByScore c seed l).orderedInsert (scoreGE c seed) a := by
  rw [sortByScore_eq, sortByScore_eq]; rfl

theorem sortByScore_length (c : LotteryWinnersCalculator) (seed : uint256)
    (l : LotteryCoinstakes) : (sortByScore c seed l).length = l.length := by
  rw [sortByScore_eq]; exact List.length_insertionSort _ l

theorem sortByScore_perm (c : LotteryWinnersCalculator) (seed : uint256)
    (l : LotteryCoinstakes) : (sortByScore c seed l).Perm l := by
  rw [sortByScore_eq]; exact List.perm_insertionSort _ l

theorem sortByScore_mem (c : LotteryWinnersCalculator) (seed : uint256)
    (l : LotteryCoinstakes) (e : LotteryCoinstake) : e ∈ sortByScore c seed l ↔ e ∈ l :=
  (sortByScore_perm c seed l).mem_iff

theorem sortByScore_sorted (c : LotteryWinnersCalculator) (seed : uint256)
    (l : LotteryCoinstakes) : (sortByScore c seed l).Sorted (scoreGE c seed) := by
  rw [sortByScore_eq]; exact List.sorted_insertionSort _ l

/-- A sequence that is already in order is left as it is. -/
theorem sortByScore_of_sorted (c : LotteryWinnersCalculator) (seed : uint256)
    (l : LotteryCoinstakes) (h : l.Sorted (scoreGE c seed)) : sortByScore c seed l = l := by
  rw [sortByScore_eq]; exact List.Sorted.insertionSort_eq h

/-- The sort of `UpdateCoinstakes`, whose comparator reads the scores from the
map, is the stable sort by score; when it is skipped the sequence is in order. -/
theorem UpdateCoinstakes_snd (c : LotteryWinnersCalculator) (seed : uint256)
    (l : LotteryCoinstakes) :
    (UpdateCoinstakes c seed l).2
      = if l.length > 11 then (sortByScore c seed l).dropLast else sortByScore c seed l := by
  have key : (if (rankedScoreAwareCoinstakes c seed l).length > 1 then
      stable_sort (fun lhs rhs =>
        decide ((RankMap.at (rankedScoreAwareCoinstakes c seed l) lhs.1).score
          > (RankMap.at (rankedScoreAwareCoinstakes c seed l) rhs.1).score)) l
      else l) = sortByScore c seed l := by
    by_cases hm : (rankedScoreAwareCoinstakes c seed l).length > 1
    · rw [if_pos hm]
      unfold sortByScore stable_sort
      apply insertionSort_congr
      intro a ha b hb
      simp only [rankedScoreAwareCoinstakes_score c seed l a ha,
        rankedScoreAwareCoinstakes_score c seed l b hb]
    · rw [if_neg hm]
      symm
      apply sortByScore_of_sorted
      apply List.pairwise_of_forall_mem_list
      intro a ha b hb
      have := rankedScoreAwareCoinstakes_small c seed l hm a b ha hb
      simp [scoreGE, entryScore, this]
  unfold UpdateCoinstakes
  simp only [key, sortByScore_length]

theorem UpdateCoinstakes_snd_length (c : LotteryWinnersCalculator) (seed : uint256)
    (l : LotteryCoinstakes) (h : l.length ≤ 12) : (UpdateCoinstakes c seed l).2.length ≤ 11 := by
  rw [UpdateCoinstakes_snd]
  split
  · rw [List.length_dropLast, sortByScore_length]; omega
  · rw [sortByScore_length]; omega

theorem orderedInsert_append_singleton (c : LotteryWinnersCalculator) (seed : uint256)
    (a x : LotteryCoinstake) (h : scoreGE c seed a x) : ∀ ys : LotteryCoinstakes,
    (ys ++ [x]).orderedInsert (scoreGE c seed) a = ys.orderedInsert (scoreGE c seed) a ++ [x] := by
  intro ys
  induction ys with
  | nil => simp [List.orderedInsert, h]
  | cons b ys ih =>
    by_cases hr : scoreGE c seed a b
    · rw [List.cons_append, orderedInsert_cons_eq, orderedInsert_cons_eq, if_pos hr, if_pos hr]
      rfl
    · rw [List.cons_append, orderedInsert_cons_eq, orderedInsert_cons_eq, if_neg hr, if_neg hr,
        ih]
      rfl

theorem orderedInsert_of_lowest (c : LotteryWinnersCalculator) (seed : uint256)
    (a : LotteryCoinstake) : ∀ ys : LotteryCoinstakes, (∀ b ∈ ys, ¬ scoreGE c seed a b) →
    ys.orderedInsert (scoreGE c seed) a = ys ++ [a] := by
  intro ys
  induction ys with
  | nil => intro _; rfl
  | cons b ys ih =>
    intro h
    have hb := h b (List.mem_cons_self b ys)
    rw [orderedInsert_cons_eq, if_neg hb, ih (fun x hx => h x (List.mem_cons_of_mem b hx))]
    rfl

/-- An entry whose score is strictly the lowest ends last. -/
theorem sortByScore_lowest (c : LotteryWinnersCalculator) (seed : uint256)
    (y : LotteryCoinstake) (l2 : LotteryCoinstakes) : ∀ l1 : LotteryCoinstakes,
    (∀ e ∈ l1 ++ l2, entryScore c seed y < entryScore c seed e) →
    sortByScore c seed (l1 ++ y :: l2) = sortByScore c seed (l1 ++ l2) ++ [y] := by
  intro l1
  induction l1 with
  | nil =>
    intro h
    simp only [List.nil_append] at h ⊢
    rw [sortByScore_cons]
    apply orderedInsert_of_lowest
    intro b hb
    have := h b ((sortByScore_mem c seed l2 b).1 hb)
    simp only [scoreGE, not_le]
    exact this
  | cons a l1 ih =>
    intro h
    have ha := h a (by simp)
    simp only [List.cons_append]
    rw [sortByScore_cons, sortByScore_cons,
      ih (fun e he => h e (by simp only [List.cons_append, List.mem_cons]; exact Or.inr he))]
    apply orderedInsert_append_singleton
    exact Nat.le_of_lt ha

/-- A last entry whose score is not above any other stays last. -/
theorem sortByScore_append_le (c : LotteryWinnersCalculator) (seed : uint256)
    (x : LotteryCoinstake) : ∀ l : LotteryCoinstakes,
    (∀ e ∈ l, entryScore c seed x ≤ entryScore c seed e) →
    sortByScore c seed (l ++ [x]) = sortByScore c seed l ++ [x] := by
  intro l
  induction l with
  | nil => intro _; rfl
  | cons a l ih =>
    intro h
    simp only [List.cons_append]
    rw [sortByScore_cons, sortByScore_cons,
      ih (fun e he => h e (List.mem_cons_of_mem a he))]
    apply orderedInsert_append_singleton
    exact h a (List.mem_cons_self a l)

/-! ## The update flag -/

theorem UpdateCoinstakes_fst (c : LotteryWinnersCalculator) (seed : uint256)
    (l : LotteryCoinstakes) :
    (UpdateCoinstakes c seed l).1
      = if (rankedScoreAwareCoinstakes c seed l).length > 1 then
          match (sortByScore c seed l).getLast? with
          | some back =>
            decide ((RankMap.at (rankedScoreAwareCoinstakes c seed l) back.1).rank ≠ 11)
          | none => true
        else true := by
  by_cases hm : (rankedScoreAwareCoinstakes c seed l).length > 1
  · have key : stable_sort (fun lhs rhs =>
        decide ((RankMap.at (rankedScoreAwareCoinstakes c seed l) lhs.1).score
          > (RankMap.at (rankedScoreAwareCoinstakes c seed l) rhs.1).score)) l
        = sortByScore c seed l := by
      unfold sortByScore stable_sort
      apply insertionSort_congr
      intro a ha b hb
      simp only [rankedScoreAwareCoinstakes_score c seed l a ha,
        rankedScoreAwareCoinstakes_score c seed l b hb]
    unfold UpdateCoinstakes
    simp only [if_pos hm, key]
  · unfold UpdateCoinstakes
    simp only [if_neg hm]

/-- With pairwise distinct ids the flag is false exactly when the entry at
position 11 of the input is the last one after the sort. -/
theorem UpdateCoinstakes_fst_of_nodup (c : LotteryWinnersCalculator) (seed : uint256)
    (l : LotteryCoinstakes) (hnd : (l.map Prod.fst).Nodup) :
    (UpdateCoinstakes c seed l).1 = false
      ↔ ∃ back, (sortByScore c seed l).getLast? = some back
          ∧ (l.map Prod.fst).indexOf back.1 = 11 := by
  have hlen : (rankedScoreAwareCoinstakes c seed l).length = l.length := by
    rw [rankedScoreAwareCoinstakes_eq, emplaceFrom_length_of_nodup c seed l [] hnd (by simp)]
    simp
  have hrank : ∀ e ∈ l, (RankMap.at (rankedScoreAwareCoinstakes c seed l) e.1).rank
      = (l.map Prod.fst).indexOf e.1 := by
    intro e he
    rw [rankedScoreAwareCoinstakes_eq,
      emplaceFrom_rank_of_nodup c seed l [] hnd (by simp) e.1 (List.mem_map.2 ⟨e, he, rfl⟩)]
    simp
  rw [UpdateCoinstakes_fst, hlen]
  constructor
  · intro h
    by_cases h1 : l.length > 1
    · rw [if_pos h1] at h
      cases hb : (sortByScore c seed l).getLast? with
      | none => rw [hb] at h; simp at h
      | some back =>
        rw [hb] at h
        have hmem : back ∈ l :=
          (sortByScore_mem c seed l back).1 (List.mem_of_getLast?_eq_some hb)
        refine ⟨back, rfl, ?_⟩
        rw [← hrank back hmem]
        simpa using h
    · rw [if_neg h1] at h; simp at h
  · rintro ⟨back, hb, hidx⟩
    have hmem : back ∈ l :=
      (sortByScore_mem c seed l back).1 (List.mem_of_getLast?_eq_some hb)
    have hlt : (l.map Prod.fst).indexOf back.1 < (l.map Prod.fst).length :=
      List.indexOf_lt_length.2 (List.mem_map.2 ⟨back, hmem, rfl⟩)
    rw [hidx, List.length_map] at hlt
    rw [if_pos (by omega), hb]
    simp only
    rw [hrank back hmem, hidx]
    simp

/-- For a sequence of at most 12 entries with pairwise distinct ids, the flag is
false exactly when there are 12 entries and no entry scores below the last. -/
theorem UpdateCoinstakes_fst_false_iff (c : LotteryWinnersCalculator) (seed : uint256)
    (init : LotteryCoinstakes) (x : LotteryCoinstake) (hlen : init.length ≤ 11)
    (hnd : ((init ++ [x]).map Prod.fst).Nodup) :
    (UpdateCoinstakes c seed (init ++ [x])).1 = false
      ↔ init.length = 11 ∧ ∀ e ∈ init, entryScore c seed x ≤ entryScore c seed e := by
  have hids : (init ++ [x]).map Prod.fst = init.map Prod.fst ++ [x.1] := by simp
  have hx : x.1 ∉ init.map Prod.fst := by
    rw [hids] at hnd
    have := (List.nodup_append.1 hnd).2.2
    intro h
    exact this h (List.mem_singleton_self x.1)
  have hidx : ((init ++ [x]).map Prod.fst).indexOf x.1 = init.length := by
    rw [hids, List.indexOf_append_of_not_mem hx]
    simp
  rw [UpdateCoinstakes_fst_of_nodup c seed _ hnd]
  constructor
  · rintro ⟨back, hb, hi⟩
    have hmem : back ∈ init ++ [x] :=
      (sortByScore_mem c seed _ back).1 (List.mem_of_getLast?_eq_some hb)
    have hback : back = x := by
      rcases List.mem_append.1 hmem with h | h
      · exfalso
        have h1 : back.1 ∈ init.map Prod.fst := List.mem_map.2 ⟨back, h, rfl⟩
        rw [hids, List.indexOf_append_of_mem h1] at hi
        have := List.indexOf_lt_length.2 h1
        rw [List.length_map] at this
        omega
      · exact List.mem_singleton.1 h
    subst hback
    refine ⟨by omega, ?_⟩
    obtain ⟨ys, hys⟩ := List.getLast?_eq_some_iff.1 hb
    have hs := sortByScore_sorted c seed (init ++ [back])
    rw [hys] at hs
    have hs2 := (List.pairwise_append.1 hs).2.2
    intro e he
    have he1 : e ∈ ys ++ [back] := by
      rw [← hys, sortByScore_mem]
      exact List.mem_append_left _ he
    rcases List.mem_append.1 he1 with h | h
    · exact hs2 e h back (List.mem_singleton_self back)
    · rw [List.mem_singleton.1 h]
  · rintro ⟨h11, hle⟩
    refine ⟨x, ?_, ?_⟩
    · rw [sortByScore_append_le c seed x init hle, List.getLast?_concat]
    · rw [hidx, h11]

/-! ## Verification of the state update -/

/-- An eligible transaction has the output whose script becomes the payee. -/
theorem payee_of_eligible (c : LotteryWinnersCalculator) (tx : CTransaction) (h : Int)
    (he : IsCoinstakeValidForLottery c tx h = some true) :
    ∃ payee, (if tx.IsCoinBase then tx.vout[0]? else tx.vout[1]?) = some payee := by
  unfold IsCoinstakeValidForLottery at he
  by_cases hcb : tx.IsCoinBase = true
  · rw [if_pos hcb] at he
    rw [if_pos hcb]
    cases h0 : tx.vout[0]? with
    | none => rw [h0] at he; cases he
    | some o => exact ⟨o, rfl⟩
  · rw [if_neg hcb] at he
    rw [if_neg hcb]
    cases h1 : tx.vout[1]? with
    | none => rw [h1] at he; cases he
    | some o => exact ⟨o, rfl⟩

/-- The ranking step: what the state machine returns once the call has passed
the four early exits and the seed and the payee output are resolved. -/
theorem CalculateUpdatedLotteryWinners_ranking (c : LotteryWinnersCalculator)
    (tx : CTransaction) (prev : LotteryCoinstakeData) (h : Int) (seed : uint256)
    (payee : CTxOut) (h1 : 0 < h) (h2 : c.IsValidLotteryBlockHeight h = false)
    (h3 : c.startOfLotteryBlocks_ < h) (h4 : IsCoinstakeValidForLottery c tx h = some true)
    (h5 : GetLastLotteryBlockHashBeforeHeight c h = some seed)
    (h6 : (if tx.IsCoinBase then tx.vout[0]? else tx.vout[1]?) = some payee) :
    CalculateUpdatedLotteryWinners c tx prev h
      = if (UpdateCoinstakes c seed
            (prev.coinstakes ++ [(tx.GetHash, payee.scriptPubKey)])).1 = true then
          some ⟨h, (UpdateCoinstakes c seed
            (prev.coinstakes ++ [(tx.GetHash, payee.scriptPubKey)])).2⟩
        else some prev := by
  unfold CalculateUpdatedLotteryWinners
  rw [if_neg (by omega), h2, if_neg (by simp), if_neg (by omega), h4]
  simp only [h5, h6]
  rfl

/-- Every path of the state machine that returns the previous state or an empty
state keeps the cap, and the ranking path truncates to 11. -/
theorem CalculateUpdatedLotteryWinners_length (c : LotteryWinnersCalculator)
    (tx : CTransaction) (prev : LotteryCoinstakeData) (h : Int) (s : LotteryCoinstakeData)
    (hprev : prev.coinstakes.length ≤ 11)
    (hs : CalculateUpdatedLotteryWinners c tx prev h = some s) : s.coinstakes.length ≤ 11 := by
  unfold CalculateUpdatedLotteryWinners at hs
  split at hs
  · cases hs; simp
  split at hs
  · cases hs; simp
  split at hs
  · cases hs; exact hprev
  split at hs
  · cases hs
  · cases hs; exact hprev
  · split at hs
    · cases hs
    · split at hs
      · cases hs
      · dsimp only at hs
        split at hs
        · cases hs
          apply UpdateCoinstakes_snd_length
          simp only [LotteryCoinstakeData.getLotteryCoinstakes, List.length_append,
            List.length_cons, List.length_nil]
          omega
        · cases hs; exact hprev

/-- The state machine returns a state whenever the transaction has the outputs
the code indexes (one for a coinbase, two otherwise) and the seed block of the
height can be looked up. -/
theorem CalculateUpdatedLotteryWinners_isSome (c : LotteryWinnersCalculator)
    (tx : CTransaction) (prev : LotteryCoinstakeData) (h : Int)
    (hwf : (tx.IsCoinBase = true ∧ 1 ≤ tx.vout.length)
      ∨ (tx.IsCoinBase = false ∧ 2 ≤ tx.vout.length))
    (hseed : (GetLastLotteryBlockHashBeforeHeight c h).isSome = true) :
    (CalculateUpdatedLotteryWinners c tx prev h).isSome = true := by
  obtain ⟨seed, hs⟩ := Option.isSome_iff_exists.1 hseed
  have hpay : ∃ payee, (if tx.IsCoinBase then tx.vout[0]? else tx.vout[1]?) = some payee := by
    rcases hwf with ⟨hcb, hl⟩ | ⟨hcb, hl⟩
    · exact ⟨tx.vout[0], by rw [if_pos hcb]; exact List.getElem?_eq_getElem (by omega)⟩
    · exact ⟨tx.vout[1], by
        rw [if_neg (by simp [hcb])]; exact List.getElem?_eq_getElem (by omega)⟩
  obtain ⟨payee, hp⟩ := hpay
  have helig : ∃ b, IsCoinstakeValidForLottery c tx h = some b := by
    unfold IsCoinstakeValidForLottery
    rcases hwf with ⟨hcb, _⟩ | ⟨hcb, _⟩
    · rw [if_pos hcb] at hp ⊢
      rw [hp]
      exact ⟨_, rfl⟩
    · rw [if_neg (by simp [hcb])] at hp ⊢
      rw [hp]
      exact ⟨_, rfl⟩
  obtain ⟨b, hb⟩ := helig
  unfold CalculateUpdatedLotteryWinners
  split
  · rfl
  split
  · rfl
  split
  · rfl
  rw [hb]
  cases b with
  | false => rfl
  | true =>
    simp only [hs, hp]
    split <;> rfl

/-- C1. The size cap is an invariant of `CalculateUpdatedLotteryWinners`: from a
previous state of at most 11 entries every returned state has at most 11 entries,
for every transaction, height and calculator; hence every state reachable from an
empty state by repeated calls has at most 11 entries. A state is returned
whenever the transaction has the outputs the code indexes and the seed block can
be looked up. -/
theorem size_cap_invariant :
    (∀ (c : LotteryWinnersCalculator) (tx : CTransaction) (prev : LotteryCoinstakeData)
        (h : Int) (s : LotteryCoinstakeData), prev.coinstakes.length ≤ 11 →
        CalculateUpdatedLotteryWinners c tx prev h = some s → s.coinstakes.length ≤ 11)
    ∧ (∀ s : LotteryCoinstakeData, Reachable s → s.coinstakes.length ≤ 11)
    ∧ (∀ (c : LotteryWinnersCalculator) (tx : CTransaction) (prev : LotteryCoinstakeData)
        (h : Int),
        ((tx.IsCoinBase = true ∧ 1 ≤ tx.vout.length)
          ∨ (tx.IsCoinBase = false ∧ 2 ≤ tx.vout.length)) →
        (GetLastLotteryBlockHashBeforeHeight c h).isSome = true →
        ∃ s, CalculateUpdatedLotteryWinners c tx prev h = some s) := by
  refine ⟨fun c tx prev h s hprev hs =>
    CalculateUpdatedLotteryWinners_length c tx prev h s hprev hs, ?_, ?_⟩
  · intro s hr
    induction hr with
    | empty h => simp
    | step c tx h _ hs ih => exact CalculateUpdatedLotteryWinners_length c tx _ h _ ih hs
  · intro c tx prev h hwf hseed
    exact Option.isSome_iff_exists.1 (CalculateUpdatedLotteryWinners_isSome c tx prev h hwf hseed)

/-- The cap at work: the example state of 11 entries, extended by a ticket of
score 45, is returned with 11 entries, and that state is reachable only with at
most 11 entries. -/
theorem size_cap_invariant_witness :
    examplePrevious.coinstakes.length ≤ 11
    ∧ CalculateUpdatedLotteryWinners exampleCalculator (exampleCoinstake 45) examplePrevious 125
        = some ⟨125, [(100, [1]), (90, [2]), (80, [3]), (70, [4]), (60, [5]), (50, [6]),
            (45, [99]), (40, [7]), (30, [8]), (20, [9]), (10, [10])]⟩
    ∧ (⟨125, [(100, [1]), (90, [2]), (80, [3]), (70, [4]), (60, [5]), (50, [6]),
            (45, [99]), (40, [7]), (30, [8]), (20, [9]), (10, [10])]⟩
          : LotteryCoinstakeData).coinstakes.length ≤ 11 :=
  ⟨by decide, by decide,
    size_cap_invariant.1 exampleCalculator (exampleCoinstake 45) examplePrevious 125 _
      (by decide) (by decide)⟩

/-- The ids of a previous state stay pairwise distinct when an entry with a
fresh id is appended. -/
theorem nodup_append_fresh (l : LotteryCoinstakes) (x : LotteryCoinstake)
    (hnd : (l.map Prod.fst).Nodup) (hne : ∀ e ∈ l, e.1 ≠ x.1) :
    ((l ++ [x]).map Prod.fst).Nodup := by
  rw [List.map_append, List.nodup_append]
  refine ⟨hnd, by simp, ?_⟩
  intro k hk hkx
  simp only [List.map_cons, List.map_nil, List.mem_singleton] at hkx
  obtain ⟨e, he, hek⟩ := List.mem_map.1 hk
  exact hne e he (hek.trans hkx)

/-- Entries in strictly descending score order have pairwise distinct ids. -/
theorem nodup_of_strictly_descending (c : LotteryWinnersCalculator) (seed : uint256)
    (l : LotteryCoinstakes)
    (hs : l.Pairwise (fun a b => entryScore c seed a > entryScore c seed b)) :
    (l.map Prod.fst).Nodup := by
  unfold List.Nodup
  rw [List.pairwise_map]
  refine hs.imp ?_
  intro a b hab heq
  simp only [entryScore, heq] at hab
  exact Nat.lt_irrefl _ hab

/-- C2. Update-skip: at a height that is positive, not a superblock height and
above the activation height, for an eligible transaction and a previous state of
exactly 11 entries whose ids are pairwise distinct and differ from the
transaction id, a transaction scoring below each of the 11 previous entries
leaves the previous state as it is: same entries, same order, same height. -/
theorem update_skip (c : LotteryWinnersCalculator) (tx : CTransaction)
    (prev : LotteryCoinstakeData) (h : Int) (seed : uint256)
    (hpos : 0 < h) (hsb : c.IsValidLotteryBlockHeight h = false)
    (hact : c.startOfLotteryBlocks_ < h)
    (helig : IsCoinstakeValidForLottery c tx h = some true)
    (hseed : GetLastLotteryBlockHashBeforeHeight c h = some seed)
    (hlen : prev.coinstakes.length = 11)
    (hnd : (prev.coinstakes.map Prod.fst).Nodup)
    (hne : ∀ e ∈ prev.coinstakes, e.1 ≠ tx.GetHash)
    (hlow : ∀ e ∈ prev.coinstakes,
      CalculateLotteryScore c tx.GetHash seed < CalculateLotteryScore c e.1 seed) :
    CalculateUpdatedLotteryWinners c tx prev h = some prev := by
  obtain ⟨payee, hp⟩ := payee_of_eligible c tx h helig
  rw [CalculateUpdatedLotteryWinners_ranking c tx prev h seed payee hpos hsb hact helig hseed hp]
  have hf : (UpdateCoinstakes c seed
      (prev.coinstakes ++ [(tx.GetHash, payee.scriptPubKey)])).1 = false := by
    rw [UpdateCoinstakes_fst_false_iff c seed _ _ (by omega)
      (nodup_append_fresh _ _ hnd hne)]
    exact ⟨hlen, fun e he => Nat.le_of_lt (hlow e he)⟩
  rw [hf]
  simp

/-- The update-skip scenario of the spec: previous scores
100, 90, 80, 70, 60, 50, 40, 30, 20, 10, 5 and a candidate of score 3. -/
theorem update_skip_witness :
    CalculateUpdatedLotteryWinners exampleCalculator (exampleCoinstake 3) examplePrevious 125
      = some examplePrevious :=
  update_skip exampleCalculator (exampleCoinstake 3) examplePrevious 125 7
    (by decide) (by decide) (by decide) (by decide) (by decide) (by decide) (by decide)
    (by decide) (by decide)

/-- C3. Displacement: at a height that is positive, not a superblock height and
above the activation height, for an eligible transaction and a previous state of
exactly 11 entries in strictly descending score order (the ten highest `top`,
then the lowest `low`) whose ids differ from the transaction id, a transaction
scoring strictly above `low` yields the state stamped with the current height
whose 11 entries are `top` together with the new entry (the transaction hash
with the script of output 0 for a coinbase, of output 1 otherwise) in descending
score order, `low` being evicted. -/
theorem displacement (c : LotteryWinnersCalculator) (tx : CTransaction)
    (prev : LotteryCoinstakeData) (h : Int) (seed : uint256)
    (top : LotteryCoinstakes) (low : LotteryCoinstake)
    (hpos : 0 < h) (hsb : c.IsValidLotteryBlockHeight h = false)
    (hact : c.startOfLotteryBlocks_ < h)
    (helig : IsCoinstakeValidForLottery c tx h = some true)
    (hseed : GetLastLotteryBlockHashBeforeHeight c h = some seed)
    (hprev : prev.coinstakes = top ++ [low]) (hlen : prev.coinstakes.length = 11)
    (hdesc : prev.coinstakes.Pairwise
      (fun a b => entryScore c seed a > entryScore c seed b))
    (hne : ∀ e ∈ prev.coinstakes, e.1 ≠ tx.GetHash)
    (hgt : entryScore c seed low < CalculateLotteryScore c tx.GetHash seed) :
    ∃ (payee : CTxOut) (entries : LotteryCoinstakes),
      (if tx.IsCoinBase then tx.vout[0]? else tx.vout[1]?) = some payee
      ∧ CalculateUpdatedLotteryWinners c tx prev h = some ⟨h, entries⟩
      ∧ entries = sortByScore c seed (top ++ [(tx.GetHash, payee.scriptPubKey)])
      ∧ entries.Perm (top ++ [(tx.GetHash, payee.scriptPubKey)])
      ∧ entries.Sorted (scoreGE c seed)
      ∧ entries.length = 11
      ∧ low ∉ entries := by
  obtain ⟨payee, hp⟩ := payee_of_eligible c tx h helig
  have hnd := nodup_of_strictly_descending c seed _ hdesc
  have hnd2 := nodup_append_fresh _ (tx.GetHash, payee.scriptPubKey) hnd hne
  have htop : top.length = 10 := by
    rw [hprev] at hlen
    simp only [List.length_append, List.length_cons, List.length_nil] at hlen
    omega
  have hlowest : ∀ e ∈ top ++ [(tx.GetHash, payee.scriptPubKey)],
      entryScore c seed low < entryScore c seed e := by
    intro e he
    rcases List.mem_append.1 he with h1 | h1
    · rw [hprev] at hdesc
      exact (List.pairwise_append.1 hdesc).2.2 e h1 low (List.mem_singleton_self low)
    · rw [List.mem_singleton.1 h1]
      exact hgt
  have hsort : sortByScore c seed (prev.coinstakes ++ [(tx.GetHash, payee.scriptPubKey)])
      = sortByScore c seed (top ++ [(tx.GetHash, payee.scriptPubKey)]) ++ [low] := by
    rw [hprev, List.append_assoc]
    exact sortByScore_lowest c seed low _ top hlowest
  have hf : (UpdateCoinstakes c seed
      (prev.coinstakes ++ [(tx.GetHash, payee.scriptPubKey)])).1 = true := by
    cases hfl : (UpdateCoinstakes c seed
      (prev.coinstakes ++ [(tx.GetHash, payee.scriptPubKey)])).1 with
    | true => rfl
    | false =>
      exfalso
      have := (UpdateCoinstakes_fst_false_iff c seed _ _ (by omega) hnd2).1 hfl
      have hl := this.2 low (by rw [hprev]; simp)
      exact absurd hgt (Nat.not_lt.2 hl)
  have hs : (UpdateCoinstakes c seed
      (prev.coinstakes ++ [(tx.GetHash, payee.scriptPubKey)])).2
      = sortByScore c seed (top ++ [(tx.GetHash, payee.scriptPubKey)]) := by
    rw [UpdateCoinstakes_snd, if_pos (by simp [hlen]), hsort, List.dropLast_concat]
  refine ⟨payee, _, hp, ?_, rfl, sortByScore_perm c seed _, sortByScore_sorted c seed _, ?_, ?_⟩
  · rw [CalculateUpdatedLotteryWinners_ranking c tx prev h seed payee hpos hsb hact helig
      hseed hp, hf, hs]
    simp
  · rw [sortByScore_length]; simp [htop]
  · rw [sortByScore_mem]
    intro hmem
    have := hlowest low hmem
    exact Nat.lt_irrefl _ this

/-- The displacement scenario of the spec: previous scores
100, 90, 80, 70, 60, 50, 40, 30, 20, 10, 5 and a candidate of score 45 give
100, 90, 80, 70, 60, 50, 45, 40, 30, 20, 10 at the current height 125. -/
theorem displacement_witness :
    CalculateUpdatedLotteryWinners exampleCalculator (exampleCoinstake 45) examplePrevious 125
        = some ⟨125, [(100, [1]), (90, [2]), (80, [3]), (70, [4]), (60, [5]), (50, [6]),
            (45, [99]), (40, [7]), (30, [8]), (20, [9]), (10, [10])]⟩
    ∧ ∃ (payee : CTxOut) (entries : LotteryCoinstakes),
      (if (exampleCoinstake 45).IsCoinBase then (exampleCoinstake 45).vout[0]?
        else (exampleCoinstake 45).vout[1]?) = some payee
      ∧ CalculateUpdatedLotteryWinners exampleCalculator (exampleCoinstake 45) examplePrevious 125
          = some ⟨125, entries⟩
      ∧ entries = sortByScore exampleCalculator 7
          (examplePrevious.coinstakes.take 10 ++ [((exampleCoinstake 45).GetHash, payee.scriptPubKey)])
      ∧ entries.Perm
          (examplePrevious.coinstakes.take 10 ++ [((exampleCoinstake 45).GetHash, payee.scriptPubKey)])
      ∧ entries.Sorted (scoreGE exampleCalculator 7)
      ∧ entries.length = 11
      ∧ ((5, [11]) : LotteryCoinstake) ∉ entries :=
  ⟨by decide,
    displacement exampleCalculator (exampleCoinstake 45) examplePrevious 125 7
      (examplePrevious.coinstakes.take 10) (5, [11])
      (by decide) (by decide) (by decide) (by decide) (by decide) (by decide) (by decide)
      (by decide) (by decide) (by decide)⟩

/-! ## Eligibility -/

theorem wrapInt64_of_inInt64 (x : Int) (h : inInt64 x) : wrapInt64 x = x := by
  unfold inInt64 at h
  unfold wrapInt64
  rw [Int.emod_eq_of_lt (by omega) (by omega)]
  omega

theorem payeeSum_concat (payee : CScript) (outs : List CTxOut) (o : CTxOut) :
    payeeSum payee (outs ++ [o])
      = if o.scriptPubKey = payee then payeeSum payee outs + o.nValue
        else payeeSum payee outs := by
  unfold payeeSum
  by_cases h : o.scriptPubKey = payee
  · simp [List.filter_append, h]
  · simp [List.filter_append, h]

theorem accumulatePayee_concat (payee : CScript) (outs : List CTxOut) (o : CTxOut) :
    accumulatePayee payee (outs ++ [o])
      = if o.scriptPubKey = payee then wrapInt64 (accumulatePayee payee outs + o.nValue)
        else accumulatePayee payee outs := by
  unfold accumulatePayee
  rw [List.foldl_append]
  rfl

/-- While no partial sum leaves the 64-bit range, the accumulation of the code
is the sum of the values paid to the payee. -/
theorem accumulatePayee_eq_payeeSum (payee : CScript) (outs : List CTxOut)
    (h : ∀ init ∈ outs.inits, inInt64 (payeeSum payee init)) :
    accumulatePayee payee outs = payeeSum payee outs := by
  induction outs using List.reverseRecOn with
  | nil => rfl
  | append_singleton outs o ih =>
    have ih1 := ih (fun init hi =>
      h init ((List.mem_inits _ _).2 (((List.mem_inits _ _).1 hi).trans (List.prefix_append _ _))))
    have hall := h (outs ++ [o]) ((List.mem_inits _ _).2 (List.prefix_refl _))
    rw [accumulatePayee_concat, ih1]
    rw [payeeSum_concat] at hall ⊢
    by_cases hp : o.scriptPubKey = payee
    · rw [if_pos hp] at hall
      rw [if_pos hp, if_pos hp]
      exact wrapInt64_of_inInt64 _ hall
    · rw [if_neg hp, if_neg hp]

/-- C4 (amended). Eligibility is a strict threshold: for every height and every
transaction that is a coinbase with at least one output, or a non-coinbase with
at least two outputs of which no partial sum of the payee values leaves the
64-bit signed range, `IsCoinstakeValidForLottery` returns true if and only if
the payout amount exceeds `minimumCoinstakeForTicket(height) * 100000000`; an
amount equal to the threshold is rejected and the threshold plus one accepted. -/
theorem eligibility_strict_threshold (c : LotteryWinnersCalculator) (tx : CTransaction)
    (h : Int)
    (hwf : (tx.IsCoinBase = true ∧ 1 ≤ tx.vout.length)
      ∨ (tx.IsCoinBase = false ∧ 2 ≤ tx.vout.length))
    (hno : tx.IsCoinBase = false → ∀ payee, tx.vout[1]? = some payee →
      ∀ init ∈ tx.vout.inits, inInt64 (payeeSum payee.scriptPubKey init)) :
    ∃ amount : Int, payoutAmount tx = some amount
      ∧ IsCoinstakeValidForLottery c tx h
          = some (decide (amount > minimumCoinstakeForTicket c h * 100000000))
      ∧ (IsCoinstakeValidForLottery c tx h = some true
          ↔ amount > minimumCoinstakeForTicket c h * 100000000)
      ∧ (amount = minimumCoinstakeForTicket c h * 100000000 →
          IsCoinstakeValidForLottery c tx h = some false)
      ∧ (amount = minimumCoinstakeForTicket c h * 100000000 + 1 →
          IsCoinstakeValidForLottery c tx h = some true) := by
  have key : ∃ amount : Int, payoutAmount tx = some amount
      ∧ IsCoinstakeValidForLottery c tx h
          = some (decide (amount > minimumCoinstakeForTicket c h * 100000000)) := by
    rcases hwf with ⟨hcb, hl⟩ | ⟨hcb, hl⟩
    · obtain ⟨o, ho⟩ : ∃ o, tx.vout[0]? = some o :=
        ⟨tx.vout[0], List.getElem?_eq_getElem (by omega)⟩
      refine ⟨o.nValue, ?_, ?_⟩
      · simp [payoutAmount, hcb, ho]
      · simp [IsCoinstakeValidForLottery, hcb, ho, COIN]
    · obtain ⟨p, hp⟩ : ∃ p, tx.vout[1]? = some p :=
        ⟨tx.vout[1], List.getElem?_eq_getElem (by omega)⟩
      refine ⟨payeeSum p.scriptPubKey tx.vout, ?_, ?_⟩
      · simp [payoutAmount, hcb, hp]
      · simp [IsCoinstakeValidForLottery, hcb, hp, COIN,
          accumulatePayee_eq_payeeSum _ _ (hno hcb p hp)]
  obtain ⟨amount, ha, hr⟩ := key
  refine ⟨amount, ha, hr, ?_, ?_, ?_⟩
  · rw [hr]; simp
  · intro he; rw [hr, he]; simp
  · intro he; rw [hr, he]; simp

/-- The eligibility boundary on the example calculator, whose threshold is
10000 coins: a coinstake paying the threshold plus one unit is accepted. -/
theorem eligibility_strict_threshold_witness :
    ∃ amount : Int, payoutAmount (exampleCoinstake 45) = some amount
      ∧ IsCoinstakeValidForLottery exampleCalculator (exampleCoinstake 45) 125
          = some (decide (amount > minimumCoinstakeForTicket exampleCalculator 125 * 100000000))
      ∧ (IsCoinstakeValidForLottery exampleCalculator (exampleCoinstake 45) 125 = some true
          ↔ amount > minimumCoinstakeForTicket exampleCalculator 125 * 100000000)
      ∧ (amount = minimumCoinstakeForTicket exampleCalculator 125 * 100000000 →
          IsCoinstakeValidForLottery exampleCalculator (exampleCoinstake 45) 125 = some false)
      ∧ (amount = minimumCoinstakeForTicket exampleCalculator 125 * 100000000 + 1 →
          IsCoinstakeValidForLottery exampleCalculator (exampleCoinstake 45) 125 = some true) :=
  eligibility_strict_threshold exampleCalculator (exampleCoinstake 45) 125
    (Or.inr ⟨by decide, by decide⟩)
    (fun _ payee hp => by
      have hpe : payee = ⟨1000000000001, [99]⟩ := by
        have : (exampleCoinstake 45).vout[1]? = some ⟨1000000000001, [99]⟩ := rfl
        rw [this] at hp
        exact (Option.some.inj hp).symm
      subst hpe
      decide)

/-- C4 as stated fails when the sum overflows: the two payee outputs of
`overflowCoinstake` add up to `2 ^ 63`, far above the threshold of
`10000 * 100000000`, yet the 64-bit accumulation wraps to a negative amount and
the transaction is rejected. -/
theorem eligibility_overflow_counterexample :
    (overflowCoinstake.IsCoinBase = false ∧ 2 ≤ overflowCoinstake.vout.length)
    ∧ payoutAmount overflowCoinstake = some (2 ^ 63)
    ∧ (2 : Int) ^ 63 > minimumCoinstakeForTicket exampleCalculator 125 * 100000000
    ∧ IsCoinstakeValidForLottery exampleCalculator overflowCoinstake 125 = some false
    ∧ ¬ (IsCoinstakeValidForLottery exampleCalculator overflowCoinstake 125 = some true
          ↔ ∃ amount : Int, payoutAmount overflowCoinstake = some amount
              ∧ amount > minimumCoinstakeForTicket exampleCalculator 125 * 100000000) := by
  refine ⟨⟨by decide, by decide⟩, by decide, by decide, by decide, ?_⟩
  intro hiff
  have h1 : IsCoinstakeValidForLottery exampleCalculator overflowCoinstake 125 = some true :=
    hiff.2 ⟨2 ^ 63, by decide, by decide⟩
  revert h1
  decide

/-! ## Stability and order of the ranking -/

/-- Inserting an entry does not disturb the order of the entries of any one
score: the inserted entry comes first among the entries of its score. -/
theorem filter_orderedInsert (c : LotteryWinnersCalculator) (seed : uint256) (v : uint256)
    (a : LotteryCoinstake) : ∀ ys : LotteryCoinstakes,
    (ys.orderedInsert (scoreGE c seed) a).filter (fun e => decide (entryScore c seed e = v))
      = (a :: ys).filter (fun e => decide (entryScore c seed e = v)) := by
  intro ys
  induction ys with
  | nil => rfl
  | cons b ys ih =>
    by_cases hr : scoreGE c seed a b
    · rw [orderedInsert_cons_eq, if_pos hr]
    · rw [orderedInsert_cons_eq, if_neg hr, List.filter_cons, ih]
      have hlt : entryScore c seed a < entryScore c seed b := by
        simpa [scoreGE] using hr
      by_cases ha : entryScore c seed a = v
      · have hb : ¬ entryScore c seed b = v := by
          intro hb
          rw [ha, hb] at hlt
          exact Nat.lt_irrefl _ hlt
        simp [List.filter_cons, ha, hb]
      · simp [List.filter_cons, ha]

/-- The stable sort keeps, for every score, the entries of that score in their
input order. -/
theorem filter_sortByScore (c : LotteryWinnersCalculator) (seed : uint256) (v : uint256)
    (l : LotteryCoinstakes) :
    (sortByScore c seed l).filter (fun e => decide (entryScore c seed e = v))
      = l.filter (fun e => decide (entryScore c seed e = v)) := by
  induction l with
  | nil => rfl
  | cons a l ih =>
    rw [sortByScore_cons, filter_orderedInsert, List.filter_cons, List.filter_cons, ih]

/-- C5. Stable tie-break: for every seed and every input sequence, the entries of
any one score that remain after `UpdateCoinstakes` are an initial segment of the
entries of that score in the input, in the same order; so of two entries with
equal scores that both remain, the one standing ahead in the result stood ahead
in the input. -/
theorem stable_tie_break (c : LotteryWinnersCalculator) (seed : uint256)
    (l : LotteryCoinstakes) :
    (∀ v : uint256,
      List.IsPrefix
        ((UpdateCoinstakes c seed l).2.filter (fun e => decide (entryScore c seed e = v)))
        (l.filter (fun e => decide (entryScore c seed e = v))))
    ∧ (∀ a b : LotteryCoinstake, entryScore c seed a = entryScore c seed b →
        List.Sublist [a, b] (UpdateCoinstakes c seed l).2 → List.Sublist [a, b] l) := by
  have h1 : ∀ v : uint256,
      List.IsPrefix
        ((UpdateCoinstakes c seed l).2.filter (fun e => decide (entryScore c seed e = v)))
        (l.filter (fun e => decide (entryScore c seed e = v))) := by
    intro v
    rw [UpdateCoinstakes_snd, ← filter_sortByScore c seed v l]
    split
    · exact List.IsPrefix.filter _ (List.dropLast_prefix _)
    · exact List.prefix_refl _
  refine ⟨h1, ?_⟩
  intro a b hab hsub
  have h2 := List.Sublist.filter (fun e => decide (entryScore c seed e = entryScore c seed a)) hsub
  have h3 : [a, b].filter (fun e => decide (entryScore c seed e = entryScore c seed a))
      = [a, b] := by
    simp [List.filter_cons, hab]
  rw [h3] at h2
  exact (h2.trans (h1 (entryScore c seed a)).sublist).trans (List.filter_sublist _)

/-- Two tickets of equal score: ids 10 and 11 both score 5 against
`tieCalculator`; the one known earlier stays ahead after the merge. -/
theorem stable_tie_break_witness :
    (UpdateCoinstakes tieCalculator 7 [(10, [1]), (20, [2]), (11, [3])]).2
      = [(20, [2]), (10, [1]), (11, [3])]
    ∧ List.Sublist [((10, [1]) : LotteryCoinstake), (11, [3])]
        [(10, [1]), (20, [2]), (11, [3])] :=
  ⟨by decide,
    (stable_tie_break tieCalculator 7 [(10, [1]), (20, [2]), (11, [3])]).2
      (10, [1]) (11, [3]) (by decide) (by decide)⟩

/-- C6. For every seed and every input sequence, the sequence left by
`UpdateCoinstakes` is in non-increasing order of `CalculateLotteryScore`, and it
is the score-ordered stable rearrangement of the input, with its last
(lowest-scored) element removed when the input has more than 11 entries and
with nothing removed otherwise. -/
theorem UpdateCoinstakes_sorted_truncated (c : LotteryWinnersCalculator) (seed : uint256)
    (l : LotteryCoinstakes) :
    (UpdateCoinstakes c seed l).2.Sorted
      (fun a b => CalculateLotteryScore c b.1 seed ≤ CalculateLotteryScore c a.1 seed)
    ∧ ∃ s : LotteryCoinstakes, s.Perm l
        ∧ s.Sorted
            (fun a b => CalculateLotteryScore c b.1 seed ≤ CalculateLotteryScore c a.1 seed)
        ∧ (∀ v : uint256,
            s.filter (fun e => decide (CalculateLotteryScore c e.1 seed = v))
              = l.filter (fun e => decide (CalculateLotteryScore c e.1 seed = v)))
        ∧ (∀ low, s.getLast? = some low →
            ∀ e ∈ s, CalculateLotteryScore c low.1 seed ≤ CalculateLotteryScore c e.1 seed)
        ∧ (UpdateCoinstakes c seed l).2 = if l.length > 11 then s.dropLast else s := by
  have hsorted := sortByScore_sorted c seed l
  refine ⟨?_, sortByScore c seed l, sortByScore_perm c seed l, hsorted,
    fun v => filter_sortByScore c seed v l, ?_, UpdateCoinstakes_snd c seed l⟩
  · rw [UpdateCoinstakes_snd]
    split
    · exact hsorted.sublist (List.dropLast_sublist _)
    · exact hsorted
  · intro low hlow e he
    obtain ⟨ys, hys⟩ := List.getLast?_eq_some_iff.1 hlow
    rw [hys] at hsorted he
    rcases List.mem_append.1 he with h | h
    · exact (List.pairwise_append.1 hsorted).2.2 e h low (List.mem_singleton_self low)
    · rw [List.mem_singleton.1 h]

/-- C7 (amended). For every seed and every input sequence of at most 12 entries
with pairwise distinct ids, `UpdateCoinstakes` returns false if and only if the
sequence has exactly 12 entries and the score of its last, newly appended entry
is lower than or equal to the score of every other entry. -/
theorem shouldUpdate_false_iff (c : LotteryWinnersCalculator) (seed : uint256)
    (l : LotteryCoinstakes) (hlen : l.length ≤ 12) (hnd : (l.map Prod.fst).Nodup) :
    (UpdateCoinstakes c seed l).1 = false
      ↔ l.length = 12 ∧ ∃ x, l.getLast? = some x ∧ ∀ e ∈ l.dropLast,
          CalculateLotteryScore c x.1 seed ≤ CalculateLotteryScore c e.1 seed := by
  rcases List.eq_nil_or_concat l with hl | ⟨init, x, hl⟩
  · subst hl
    constructor
    · intro h; revert h; simp [UpdateCoinstakes, rankedScoreAwareCoinstakes]
    · rintro ⟨h, _⟩; simp at h
  · rw [List.concat_eq_append] at hl
    subst hl
    have hlen1 : init.length ≤ 11 := by
      simp only [List.length_append, List.length_cons, List.length_nil] at hlen
      omega
    rw [UpdateCoinstakes_fst_false_iff c seed init x hlen1 hnd]
    simp only [List.length_append, List.length_cons, List.length_nil, List.getLast?_concat,
      List.dropLast_concat]
    constructor
    · rintro ⟨h11, hall⟩
      exact ⟨by omega, x, rfl, hall⟩
    · rintro ⟨h12, y, hy, hall⟩
      cases hy
      exact ⟨by omega, hall⟩

/-- The update-skip sequence: the 11 example entries followed by a ticket of
score 3 make `UpdateCoinstakes` return false. -/
theorem shouldUpdate_false_iff_witness :
    (UpdateCoinstakes exampleCalculator 7 (examplePrevious.coinstakes ++ [(3, [99])])).1 = false
      ↔ (examplePrevious.coinstakes ++ [(3, [99])]).length = 12
        ∧ ∃ x, (examplePrevious.coinstakes ++ [(3, [99])]).getLast? = some x
          ∧ ∀ e ∈ (examplePrevious.coinstakes ++ [(3, [99])]).dropLast,
            CalculateLotteryScore exampleCalculator x.1 7
              ≤ CalculateLotteryScore exampleCalculator e.1 7 :=
  shouldUpdate_false_iff exampleCalculator 7 (examplePrevious.coinstakes ++ [(3, [99])])
    (by decide) (by decide)

/-- C7 as stated fails on a tie: the last entry of `tieSequence` has the score 5
of the entry before it, so it is not strictly lower than every other entry, yet
it ends last after the stable sort and `UpdateCoinstakes` returns false. -/
theorem shouldUpdate_strict_counterexample :
    tieSequence.length ≤ 12 ∧ (tieSequence.map Prod.fst).Nodup
    ∧ (UpdateCoinstakes tieCalculator 7 tieSequence).1 = false
    ∧ ¬ ((UpdateCoinstakes tieCalculator 7 tieSequence).1 = false
          ↔ tieSequence.length = 12 ∧ ∃ x, tieSequence.getLast? = some x
              ∧ ∀ e ∈ tieSequence.dropLast,
                CalculateLotteryScore tieCalculator x.1 7
                  < CalculateLotteryScore tieCalculator e.1 7) := by
  refine ⟨by decide, by decide, by decide, ?_⟩
  intro hiff
  obtain ⟨_, x, hx, hall⟩ := hiff.1 (by decide)
  have hlast : tieSequence.getLast? = some (11, [12]) := by decide
  rw [hlast] at hx
  cases hx
  have := hall (10, [11]) (by decide)
  revert this
  decide

/-! ## The state machine -/

/-- C8 (amended). The result of `CalculateUpdatedLotteryWinners` is a function of
the transaction, the previous state, the height, the snapshot of the external
views and the node's adjusted time; it does not depend on the adjusted time
when the ticket-minimum spork is inactive, or the chain has a block at that
height, or the height is not positive, a superblock height or not above the
activation height. -/
theorem result_independent_of_clock (c : LotteryWinnersCalculator) (t : Int)
    (tx : CTransaction) (prev : LotteryCoinstakeData) (h : Int)
    (hc : c.IsSporkActive = false ∨ (c.activeChain_ h).isSome = true ∨ h ≤ 0
      ∨ c.IsValidLotteryBlockHeight h = true ∨ h ≤ c.startOfLotteryBlocks_) :
    CalculateUpdatedLotteryWinners { c with GetAdjustedTime := t } tx prev h
      = CalculateUpdatedLotteryWinners c tx prev h := by
  by_cases h1 : h ≤ 0
  · simp [CalculateUpdatedLotteryWinners, h1]
  by_cases h2 : c.IsValidLotteryBlockHeight h = true
  · simp [CalculateUpdatedLotteryWinners, h1, h2]
  by_cases h3 : h ≤ c.startOfLotteryBlocks_
  · simp [CalculateUpdatedLotteryWinners, h1, h2, h3]
  have hmin : minimumCoinstakeForTicket { c with GetAdjustedTime := t } h
      = minimumCoinstakeForTicket c h := by
    rcases hc with hc | hc | hc | hc | hc
    · simp [minimumCoinstakeForTicket, hc]
    · obtain ⟨idx, hidx⟩ := Option.isSome_iff_exists.1 hc
      simp [minimumCoinstakeForTicket, hidx]
    · exact absurd hc h1
    · exact absurd hc h2
    · exact absurd hc h3
  have helig : IsCoinstakeValidForLottery { c with GetAdjustedTime := t } tx h
      = IsCoinstakeValidForLottery c tx h := by
    unfold IsCoinstakeValidForLottery
    rw [hmin]
  unfold CalculateUpdatedLotteryWinners
  rw [helig]
  rfl

/-- On the example calculator the spork is inactive, so the clock is not read. -/
theorem result_independent_of_clock_witness :
    CalculateUpdatedLotteryWinners { exampleCalculator with GetAdjustedTime := 1800000000 }
        (exampleCoinstake 45) examplePrevious 125
      = CalculateUpdatedLotteryWinners exampleCalculator (exampleCoinstake 45) examplePrevious 125 :=
  result_independent_of_clock exampleCalculator 1800000000 (exampleCoinstake 45)
    examplePrevious 125 (Or.inl rfl)

/-- C8 as stated fails: with the spork active and no block yet at height 125,
two calls that differ only in the node's adjusted time return different states;
before 1750000000 the minimum is 10000 coins and the ticket displaces the lowest
entry, afterwards the minimum is 20000 coins and the previous state is kept. -/
theorem purity_clock_counterexample :
    sporkCalculator 1800000000
        = { sporkCalculator 1700000000 with GetAdjustedTime := 1800000000 }
    ∧ CalculateUpdatedLotteryWinners (sporkCalculator 1700000000) (exampleCoinstake 45)
          examplePrevious 125
        = some ⟨125, [(100, [1]), (90, [2]), (80, [3]), (70, [4]), (60, [5]), (50, [6]),
            (45, [99]), (40, [7]), (30, [8]), (20, [9]), (10, [10])]⟩
    ∧ CalculateUpdatedLotteryWinners (sporkCalculator 1800000000) (exampleCoinstake 45)
          examplePrevious 125
        = some examplePrevious
    ∧ CalculateUpdatedLotteryWinners (sporkCalculator 1700000000) (exampleCoinstake 45)
          examplePrevious 125
        ≠ CalculateUpdatedLotteryWinners (sporkCalculator 1800000000) (exampleCoinstake 45)
          examplePrevious 125 :=
  ⟨rfl, by decide, by decide, by decide⟩

/-- C9. Superblock reset: at every positive height that the validator reports
as a lottery block height, `CalculateUpdatedLotteryWinners` returns the state
with that height and no entries, whatever the previous state, the transaction
(it may have no outputs), the activation height and the eligibility. -/
theorem superblock_reset (c : LotteryWinnersCalculator) (tx : CTransaction)
    (prev : LotteryCoinstakeData) (h : Int) (hpos : 0 < h)
    (hsb : c.IsValidLotteryBlockHeight h = true) :
    CalculateUpdatedLotteryWinners c tx prev h = some ⟨h, []⟩ := by
  unfold CalculateUpdatedLotteryWinners
  rw [if_neg (by omega), if_pos hsb]

/-- The reset at the lottery block 130 of the example calculator, for a
transaction without outputs and the example state of 11 entries. -/
theorem superblock_reset_witness :
    CalculateUpdatedLotteryWinners exampleCalculator ⟨1, false, []⟩ examplePrevious 130
      = some ⟨130, []⟩ :=
  superblock_reset exampleCalculator ⟨1, false, []⟩ examplePrevious 130 (by decide) (by decide)

/-- C10. Pre-activation carry-forward: at every height with
`0 < height ≤ activationHeight` that is not a superblock height,
`CalculateUpdatedLotteryWinners` returns the previous state exactly (same
entries, same order, same height), whatever the transaction, which may have no
outputs. -/
theorem pre_activation_carry_forward (c : LotteryWinnersCalculator) (tx : CTransaction)
    (prev : LotteryCoinstakeData) (h : Int) (hpos : 0 < h)
    (hact : h ≤ c.startOfLotteryBlocks_) (hsb : c.IsValidLotteryBlockHeight h = false) :
    CalculateUpdatedLotteryWinners c tx prev h = some prev := by
  unfold CalculateUpdatedLotteryWinners
  rw [if_neg (by omega), hsb, if_neg (by simp), if_pos hact]
  rfl

/-- The carry-forward at height 55, below the activation height 100 of the
example calculator, for a transaction without outputs. -/
theorem pre_activation_carry_forward_witness :
    CalculateUpdatedLotteryWinners exampleCalculator ⟨1, false, []⟩ examplePrevious 55
      = some examplePrevious :=
  pre_activation_carry_forward exampleCalculator ⟨1, false, []⟩ examplePrevious 55
    (by decide) (by decide) (by decide)

/-- C11. For every height `≤ 0`, every previous state, every transaction and
every answer of the external views, `CalculateUpdatedLotteryWinners` returns the
empty default state (the height of a default-constructed state, no entries);
the branch is taken before the superblock and the pre-activation tests. -/
theorem non_positive_height_default (c : LotteryWinnersCalculator) (tx : CTransaction)
    (prev : LotteryCoinstakeData) (h : Int) (hh : h ≤ 0) :
    CalculateUpdatedLotteryWinners c tx prev h = some ⟨c.defaultHeight, []⟩ := by
  unfold CalculateUpdatedLotteryWinners
  rw [if_pos hh]

/-- Height 0 of the example calculator is reported as a lottery block height and
is below the activation height 100, and height -5 is below it too; both give
the empty default state, not `{0, []}` of the reset nor the previous state. -/
theorem non_positive_height_default_witness :
    exampleCalculator.IsValidLotteryBlockHeight 0 = true
    ∧ (0 : Int) ≤ exampleCalculator.startOfLotteryBlocks_
    ∧ CalculateUpdatedLotteryWinners { exampleCalculator with defaultHeight := -1 }
        (exampleCoinstake 45) examplePrevious 0 = some ⟨-1, []⟩ :=
  ⟨by decide, by decide,
    non_positive_height_default { exampleCalculator with defaultHeight := -1 }
      (exampleCoinstake 45) examplePrevious 0 (by decide)⟩

/-- C12. Ineligible carry-forward: at a height that is positive, not a
superblock height and above the activation height, a transaction for which
`IsCoinstakeValidForLottery` is false leaves the previous state as it is (same
entries, same order, same height); no seed is resolved: the result is the same
whatever the cycle schedule answers, a cycle length of 0 included. -/
theorem ineligible_carry_forward (c : LotteryWinnersCalculator) (tx : CTransaction)
    (prev : LotteryCoinstakeData) (h : Int) (hpos : 0 < h)
    (hsb : c.IsValidLotteryBlockHeight h = false) (hact : c.startOfLotteryBlocks_ < h)
    (helig : IsCoinstakeValidForLottery c tx h = some false) :
    CalculateUpdatedLotteryWinners c tx prev h = some prev
    ∧ ∀ cycle : Int → Int,
        CalculateUpdatedLotteryWinners { c with GetLotteryBlockPaymentCycle := cycle } tx prev h
          = some prev := by
  have key : ∀ c1 : LotteryWinnersCalculator, c1.IsValidLotteryBlockHeight h = false →
      c1.startOfLotteryBlocks_ < h → IsCoinstakeValidForLottery c1 tx h = some false →
      CalculateUpdatedLotteryWinners c1 tx prev h = some prev := by
    intro c1 h2 h3 h4
    unfold CalculateUpdatedLotteryWinners
    rw [if_neg (by omega), h2, if_neg (by simp), if_neg (by omega), h4]
    rfl
  refine ⟨key c hsb hact helig, fun cycle => key _ hsb hact ?_⟩
  exact helig

/-- A coinstake paying exactly the threshold of 10000 coins is ineligible; the
previous state is carried forward, also under a schedule whose cycle length 0
would make the seed resolution fail. -/
theorem ineligible_carry_forward_witness :
    GetLastLotteryBlockHashBeforeHeight
        { exampleCalculator with GetLotteryBlockPaymentCycle := fun _ => 0 } 125 = none
    ∧ CalculateUpdatedLotteryWinners exampleCalculator
        ⟨45, false, [⟨0, []⟩, ⟨1000000000000, [99]⟩]⟩ examplePrevious 125 = some examplePrevious
    ∧ ∀ cycle : Int → Int,
        CalculateUpdatedLotteryWinners
          { exampleCalculator with GetLotteryBlockPaymentCycle := cycle }
          ⟨45, false, [⟨0, []⟩, ⟨1000000000000, [99]⟩]⟩ examplePrevious 125
          = some examplePrevious :=
  ⟨by decide,
    ineligible_carry_forward exampleCalculator ⟨45, false, [⟨0, []⟩, ⟨1000000000000, [99]⟩]⟩
      examplePrevious 125 (by decide) (by decide) (by decide) (by decide)⟩

/-! ## The minimum ticket value -/

/-- C13. `minimumCoinstakeForTicket` is total and falls back to the default: for
every height it returns 10000 when the ticket-minimum spork is inactive or when
the entry selected for (height, timestamp) is not valid, and otherwise the
ticket value of that entry; the timestamp is the time of the block at that
height when the chain has one and the node's adjusted time otherwise. -/
theorem minimumCoinstakeForTicket_fallback (c : LotteryWinnersCalculator) (h : Int) :
    (c.IsSporkActive = false → minimumCoinstakeForTicket c h = 10000)
    ∧ (∀ idx : CBlockIndex, c.IsSporkActive = true → c.activeChain_ h = some idx →
        ((c.GetActiveMultiValueSpork h idx.nTime).IsValid = false →
          minimumCoinstakeForTicket c h = 10000)
        ∧ ((c.GetActiveMultiValueSpork h idx.nTime).IsValid = true →
          minimumCoinstakeForTicket c h
            = (c.GetActiveMultiValueSpork h idx.nTime).nEntryTicketValue))
    ∧ (c.IsSporkActive = true → c.activeChain_ h = none →
        ((c.GetActiveMultiValueSpork h c.GetAdjustedTime).IsValid = false →
          minimumCoinstakeForTicket c h = 10000)
        ∧ ((c.GetActiveMultiValueSpork h c.GetAdjustedTime).IsValid = true →
          minimumCoinstakeForTicket c h
            = (c.GetActiveMultiValueSpork h c.GetAdjustedTime).nEntryTicketValue)) := by
  refine ⟨?_, ?_, ?_⟩
  · intro hs
    simp [minimumCoinstakeForTicket, hs]
  · intro idx hs hidx
    constructor
    · intro hv
      simp [minimumCoinstakeForTicket, hs, hidx, hv]
    · intro hv
      simp [minimumCoinstakeForTicket, hs, hidx, hv]
  · intro hs hnone
    constructor
    · intro hv
      simp [minimumCoinstakeForTicket, hs, hnone, hv]
    · intro hv
      simp [minimumCoinstakeForTicket, hs, hnone, hv]

/-- The minimum on `sporkCalculator`: at height 120 the chain has the block of
time 1600000120 and the selected entry gives 10000 coins; at height 125 the
chain has no block and the adjusted time 1800000000 selects 20000 coins. -/
theorem minimumCoinstakeForTicket_fallback_witness :
    minimumCoinstakeForTicket (sporkCalculator 1800000000) 120 = 10000
    ∧ minimumCoinstakeForTicket (sporkCalculator 1800000000) 125 = 20000
    ∧ minimumCoinstakeForTicket exampleCalculator 125 = 10000 :=
  ⟨((minimumCoinstakeForTicket_fallback (sporkCalculator 1800000000) 120).2.1
      ⟨1600000120, 7⟩ (by decide) (by decide)).2 (by decide),
    by decide, by decide⟩

/-! ## The seed resolution -/

theorem wrapInt32_of_inInt32 (x : Int) (h : inInt32 x) : wrapInt32 x = x := by
  unfold inInt32 at h
  unfold wrapInt32
  rw [Int.emod_eq_of_lt (by omega) (by omega)]
  omega

/-- For a height and a cycle length that are positive `int` values, the 32-bit
computation of `nLastLotteryHeight` never leaves the range and is the exact
value; the multiple of the cycle length lies between 0 and the height minus 1. -/
theorem nLastLotteryHeight_exact (c : LotteryWinnersCalculator) (h : Int) (hh : 1 ≤ h)
    (hh32 : h < 2 ^ 31) (hc : 1 ≤ c.GetLotteryBlockPaymentCycle h)
    (hc32 : c.GetLotteryBlockPaymentCycle h < 2 ^ 31) :
    nLastLotteryHeight c h
        = some (max c.startOfLotteryBlocks_
            (c.GetLotteryBlockPaymentCycle h * ((h - 1) / c.GetLotteryBlockPaymentCycle h)))
    ∧ Int.tdiv (h - 1) (c.GetLotteryBlockPaymentCycle h)
        = (h - 1) / c.GetLotteryBlockPaymentCycle h
    ∧ 0 ≤ (h - 1) / c.GetLotteryBlockPaymentCycle h
    ∧ (h - 1) / c.GetLotteryBlockPaymentCycle h ≤ h - 1
    ∧ 0 ≤ c.GetLotteryBlockPaymentCycle h * ((h - 1) / c.GetLotteryBlockPaymentCycle h)
    ∧ c.GetLotteryBlockPaymentCycle h * ((h - 1) / c.GetLotteryBlockPaymentCycle h) ≤ h - 1 := by
  generalize hL : c.GetLotteryBlockPaymentCycle h = L at hc hc32
  have hq0 : 0 ≤ (h - 1) / L := Int.ediv_nonneg (by omega) (by omega)
  have hq1 : (h - 1) / L ≤ h - 1 := Int.ediv_le_self L (by omega)
  have hm1 : L * ((h - 1) / L) ≤ h - 1 := Int.mul_ediv_self_le (by omega)
  have hm0 : 0 ≤ L * ((h - 1) / L) := Int.mul_nonneg (by omega) hq0
  have ht : Int.tdiv (h - 1) L = (h - 1) / L := Int.tdiv_eq_ediv (by omega) (by omega)
  refine ⟨?_, ht, hq0, hq1, hm0, hm1⟩
  unfold nLastLotteryHeight
  simp only [hL]
  rw [if_neg (by omega), wrapInt32_of_inInt32 (h - 1) ⟨by omega, by omega⟩, ht,
    wrapInt32_of_inInt32 ((h - 1) / L) ⟨by omega, by omega⟩,
    wrapInt32_of_inInt32 (L * ((h - 1) / L)) ⟨by omega, by omega⟩]

/-- C14. For every height `≥ 1` and every cycle length `≥ 1` (both `int`
values), the height whose block hash `GetLastLotteryBlockHashBeforeHeight`
returns, computed with truncating 32-bit division, is
`max(activationHeight, cycleLength * floor((height - 1) / cycleLength))`;
consequently two heights of the same cycle (same floor, same cycle length)
resolve the same seed. -/
theorem seed_height_formula (c : LotteryWinnersCalculator) (h : Int) (hh : 1 ≤ h)
    (hh32 : h < 2 ^ 31) (hc : 1 ≤ c.GetLotteryBlockPaymentCycle h)
    (hc32 : c.GetLotteryBlockPaymentCycle h < 2 ^ 31) :
    nLastLotteryHeight c h
        = some (max c.startOfLotteryBlocks_
            (c.GetLotteryBlockPaymentCycle h
              * Int.fdiv (h - 1) (c.GetLotteryBlockPaymentCycle h)))
    ∧ GetLastLotteryBlockHashBeforeHeight c h
        = (c.activeChain_ (max c.startOfLotteryBlocks_
            (c.GetLotteryBlockPaymentCycle h
              * Int.fdiv (h - 1) (c.GetLotteryBlockPaymentCycle h)))).map
            (fun idx => idx.GetBlockHash)
    ∧ ∀ h2 : Int, 1 ≤ h2 → h2 < 2 ^ 31 →
        c.GetLotteryBlockPaymentCycle h2 = c.GetLotteryBlockPaymentCycle h →
        Int.fdiv (h2 - 1) (c.GetLotteryBlockPaymentCycle h)
          = Int.fdiv (h - 1) (c.GetLotteryBlockPaymentCycle h) →
        GetLastLotteryBlockHashBeforeHeight c h2 = GetLastLotteryBlockHashBeforeHeight c h := by
  have hf : ∀ x : Int, Int.fdiv x (c.GetLotteryBlockPaymentCycle h)
      = x / c.GetLotteryBlockPaymentCycle h := fun x => Int.fdiv_eq_ediv x (by omega)
  have h1 := (nLastLotteryHeight_exact c h hh hh32 hc hc32).1
  rw [hf]
  refine ⟨h1, ?_, ?_⟩
  · unfold GetLastLotteryBlockHashBeforeHeight
    rw [h1]
    dsimp only
    split
    · rename_i hx; rw [hx]; rfl
    · rename_i idx hx; rw [hx]; rfl
  · intro h2 hh2 hh232 hcyc hfl
    have h3 := (nLastLotteryHeight_exact c h2 hh2 hh232 (by omega) (by omega)).1
    rw [hcyc] at h3
    rw [hf] at hfl
    unfold GetLastLotteryBlockHashBeforeHeight
    rw [h1, h3, hfl]

/-- Heights 121 and 125 of the example calculator lie in the cycle that starts
at height 120: both look up the block at height 120. -/
theorem seed_height_formula_witness :
    nLastLotteryHeight exampleCalculator 125 = some 120
    ∧ nLastLotteryHeight exampleCalculator 121 = some 120
    ∧ GetLastLotteryBlockHashBeforeHeight exampleCalculator 121
        = GetLastLotteryBlockHashBeforeHeight exampleCalculator 125 :=
  ⟨by decide, by decide,
    (seed_height_formula exampleCalculator 125 (by decide) (by decide) (by decide)
      (by decide)).2.2 121 (by decide) (by decide) (by decide) (by decide)⟩

/-- C17. The seed lookup stays inside already-connected history: for every cycle
length `≥ 1` and every height `h` with `h > 0` and `h > activationHeight` (both
`int` values), the height looked up by `GetLastLotteryBlockHashBeforeHeight`
lies between 0 and `h - 1`, and no step of its computation leaves the range of
a 32-bit signed integer. -/
theorem seed_height_in_history (c : LotteryWinnersCalculator) (h : Int) (hpos : 0 < h)
    (hh32 : h < 2 ^ 31) (hact : c.startOfLotteryBlocks_ < h)
    (hc : 1 ≤ c.GetLotteryBlockPaymentCycle h)
    (hc32 : c.GetLotteryBlockPaymentCycle h < 2 ^ 31) :
    ∃ lastLotteryHeight : Int, nLastLotteryHeight c h = some lastLotteryHeight
      ∧ 0 ≤ lastLotteryHeight ∧ lastLotteryHeight ≤ h - 1
      ∧ lastLotteryHeight = max c.startOfLotteryBlocks_
          (c.GetLotteryBlockPaymentCycle h * Int.tdiv (h - 1) (c.GetLotteryBlockPaymentCycle h))
      ∧ inInt32 (h - 1)
      ∧ inInt32 (Int.tdiv (h - 1) (c.GetLotteryBlockPaymentCycle h))
      ∧ inInt32 (c.GetLotteryBlockPaymentCycle h
          * Int.tdiv (h - 1) (c.GetLotteryBlockPaymentCycle h)) := by
  obtain ⟨h1, ht, hq0, hq1, hm0, hm1⟩ := nLastLotteryHeight_exact c h (by omega) hh32 hc hc32
  rw [ht]
  refine ⟨_, h1, ?_, ?_, rfl, ⟨by omega, by omega⟩, ⟨by omega, by omega⟩,
    ⟨by omega, by omega⟩⟩
  · exact le_trans hm0 (le_max_right _ _)
  · exact max_le (by omega) hm1

/-- At height 125 of the example calculator (activation height 100, cycle
length 10) the block looked up is the one at height 120. -/
theorem seed_height_in_history_witness :
    ∃ lastLotteryHeight : Int, nLastLotteryHeight exampleCalculator 125 = some lastLotteryHeight
      ∧ 0 ≤ lastLotteryHeight ∧ lastLotteryHeight ≤ 125 - 1
      ∧ lastLotteryHeight = max exampleCalculator.startOfLotteryBlocks_
          (exampleCalculator.GetLotteryBlockPaymentCycle 125
            * Int.tdiv (125 - 1) (exampleCalculator.GetLotteryBlockPaymentCycle 125))
      ∧ inInt32 (125 - 1)
      ∧ inInt32 (Int.tdiv (125 - 1) (exampleCalculator.GetLotteryBlockPaymentCycle 125))
      ∧ inInt32 (exampleCalculator.GetLotteryBlockPaymentCycle 125
          * Int.tdiv (125 - 1) (exampleCalculator.GetLotteryBlockPaymentCycle 125)) :=
  seed_height_in_history exampleCalculator 125 (by decide) (by decide) (by decide) (by decide)
    (by decide)

/-! ## Identity of the entries and the update-skip -/

/-- The sequence left by `UpdateCoinstakes` has pairwise distinct ids when the
input has. -/
theorem UpdateCoinstakes_snd_nodup (c : LotteryWinnersCalculator) (seed : uint256)
    (l : LotteryCoinstakes) (hnd : (l.map Prod.fst).Nodup) :
    ((UpdateCoinstakes c seed l).2.map Prod.fst).Nodup := by
  have hsort : ((sortByScore c seed l).map Prod.fst).Nodup :=
    ((sortByScore_perm c seed l).map Prod.fst).nodup_iff.2 hnd
  rw [UpdateCoinstakes_snd]
  split
  · exact hsort.sublist ((List.dropLast_sublist _).map Prod.fst)
  · exact hsort

/-- A sequence of 12 entries with pairwise distinct ids whose first 11 entries
are in descending score order is left as these 11 entries when the flag is
false. -/
theorem UpdateCoinstakes_snd_of_false (c : LotteryWinnersCalculator) (seed : uint256)
    (init : LotteryCoinstakes) (x : LotteryCoinstake) (hlen : init.length ≤ 11)
    (hnd : ((init ++ [x]).map Prod.fst).Nodup) (hsorted : init.Sorted (scoreGE c seed))
    (hf : (UpdateCoinstakes c seed (init ++ [x])).1 = false) :
    (UpdateCoinstakes c seed (init ++ [x])).2 = init := by
  obtain ⟨h11, hle⟩ := (UpdateCoinstakes_fst_false_iff c seed init x hlen hnd).1 hf
  rw [UpdateCoinstakes_snd, if_pos (by simp [h11]), sortByScore_append_le c seed x init hle,
    List.dropLast_concat, sortByScore_of_sorted c seed init hsorted]

/-- With pairwise distinct ids and at most 11 previous entries, a true flag
means that the appended entry is among the entries left. -/
theorem UpdateCoinstakes_keeps_new (c : LotteryWinnersCalculator) (seed : uint256)
    (init : LotteryCoinstakes) (x : LotteryCoinstake) (hlen : init.length ≤ 11)
    (hnd : ((init ++ [x]).map Prod.fst).Nodup)
    (hf : (UpdateCoinstakes c seed (init ++ [x])).1 = true) :
    x ∈ (UpdateCoinstakes c seed (init ++ [x])).2 := by
  have hxs : x ∈ sortByScore c seed (init ++ [x]) := by
    rw [sortByScore_mem]; simp
  rw [UpdateCoinstakes_snd]
  by_cases hl : (init ++ [x]).length > 11
  · rw [if_pos hl]
    have h11 : init.length = 11 := by
      simp only [List.length_append, List.length_cons, List.length_nil] at hl
      omega
    have hne : sortByScore c seed (init ++ [x]) ≠ [] := List.ne_nil_of_mem hxs
    have hdl := List.dropLast_append_getLast hne
    rw [← hdl] at hxs
    rcases List.mem_append.1 hxs with h | h
    · exact h
    · exfalso
      have hback : (sortByScore c seed (init ++ [x])).getLast hne = x :=
        (List.mem_singleton.1 h).symm
      have hx : x.1 ∉ init.map Prod.fst := by
        rw [List.map_append] at hnd
        have := (List.nodup_append.1 hnd).2.2
        intro hmem
        exact this hmem (List.mem_singleton_self x.1)
      have hidx : ((init ++ [x]).map Prod.fst).indexOf x.1 = 11 := by
        rw [List.map_append, List.indexOf_append_of_not_mem hx]
        simp [h11]
      have hfalse : (UpdateCoinstakes c seed (init ++ [x])).1 = false :=
        (UpdateCoinstakes_fst_of_nodup c seed _ hnd).2
          ⟨x, by rw [List.getLast?_eq_getLast _ hne, hback], hidx⟩
      rw [hf] at hfalse
      cases hfalse
  · rw [if_neg hl]
    exact hxs

/-- C15 (amended). Transaction ids stay unique within a ranked set: for every
transaction, every height and every previous state whose entries have pairwise
distinct transaction ids that differ from the id of the transaction, the entries
of the state returned by `CalculateUpdatedLotteryWinners` have pairwise distinct
transaction ids. -/
theorem ids_stay_unique (c : LotteryWinnersCalculator) (tx : CTransaction)
    (prev : LotteryCoinstakeData) (h : Int) (s : LotteryCoinstakeData)
    (hnd : (prev.coinstakes.map Prod.fst).Nodup)
    (hne : ∀ e ∈ prev.coinstakes, e.1 ≠ tx.GetHash)
    (hs : CalculateUpdatedLotteryWinners c tx prev h = some s) :
    (s.coinstakes.map Prod.fst).Nodup := by
  unfold CalculateUpdatedLotteryWinners at hs
  split at hs
  · cases hs; simp
  split at hs
  · cases hs; simp
  split at hs
  · cases hs; exact hnd
  split at hs
  · cases hs
  · cases hs; exact hnd
  · split at hs
    · cases hs
    · split at hs
      · cases hs
      · dsimp only at hs
        split at hs
        · cases hs
          exact UpdateCoinstakes_snd_nodup c _ _ (nodup_append_fresh _ _ hnd hne)
        · cases hs; exact hnd

/-- The ids 100, 5 and the new id 45 stay pairwise distinct after the merge. -/
theorem ids_stay_unique_witness :
    CalculateUpdatedLotteryWinners exampleCalculator (exampleCoinstake 45)
        ⟨120, [(100, [1]), (5, [11])]⟩ 125
      = some ⟨125, [(100, [1]), (45, [99]), (5, [11])]⟩
    ∧ ((⟨125, [(100, [1]), (45, [99]), (5, [11])]⟩ : LotteryCoinstakeData).coinstakes.map
        Prod.fst).Nodup :=
  ⟨by decide,
    ids_stay_unique exampleCalculator (exampleCoinstake 45) ⟨120, [(100, [1]), (5, [11])]⟩ 125
      _ (by decide) (by decide) (by decide)⟩

/-- C15 as stated fails when the transaction is already ranked: the previous ids
100 and 5 are distinct, the eligible transaction is the one with the id 5 again,
and the returned state holds the id 5 twice. -/
theorem ids_unique_counterexample :
    ((⟨120, [(100, [1]), (5, [99])]⟩ : LotteryCoinstakeData).coinstakes.map Prod.fst).Nodup
    ∧ CalculateUpdatedLotteryWinners exampleCalculator (exampleCoinstake 5)
        ⟨120, [(100, [1]), (5, [99])]⟩ 125
      = some ⟨125, [(100, [1]), (5, [99]), (5, [99])]⟩
    ∧ ¬ ((⟨125, [(100, [1]), (5, [99]), (5, [99])]⟩ : LotteryCoinstakeData).coinstakes.map
        Prod.fst).Nodup :=
  ⟨by decide, by decide, by decide⟩

/-- C16. Skipping the update loses nothing: for every seed and every 12-entry
sequence with pairwise distinct ids whose first 11 entries are in descending
score order, if `UpdateCoinstakes` returns false then the truncated sequence it
leaves is the first 11 entries of the input in the same order; so the
skip-optimised state machine returns the same entries as the one that always
materialises the truncated ranking. -/
theorem skip_loses_nothing :
    (∀ (c : LotteryWinnersCalculator) (seed : uint256) (l : LotteryCoinstakes),
        l.length = 12 → (l.map Prod.fst).Nodup → (l.take 11).Sorted (scoreGE c seed) →
        (UpdateCoinstakes c seed l).1 = false → (UpdateCoinstakes c seed l).2 = l.take 11)
    ∧ (∀ (c : LotteryWinnersCalculator) (tx : CTransaction) (prev : LotteryCoinstakeData)
        (h : Int), prev.coinstakes.length ≤ 11 → (prev.coinstakes.map Prod.fst).Nodup →
        (∀ e ∈ prev.coinstakes, e.1 ≠ tx.GetHash) →
        (∀ seed, GetLastLotteryBlockHashBeforeHeight c h = some seed →
          prev.coinstakes.Sorted (scoreGE c seed)) →
        (CalculateUpdatedLotteryWinners c tx prev h).map (fun s => s.coinstakes)
          = (CalculateUpdatedLotteryWinnersMaterialised c tx prev h).map
              (fun s => s.coinstakes)) := by
  constructor
  · intro c seed l hlen hnd hsorted hf
    have hsplit : l = l.take 11 ++ l.drop 11 := (List.take_append_drop 11 l).symm
    have hdrop : (l.drop 11).length = 1 := by rw [List.length_drop, hlen]
    obtain ⟨x, hx⟩ := List.length_eq_one.1 hdrop
    rw [hx] at hsplit
    have htake : (l.take 11).length ≤ 11 := by rw [List.length_take]; omega
    rw [hsplit] at hnd hf
    have := UpdateCoinstakes_snd_of_false c seed (l.take 11) x htake hnd hsorted hf
    rw [← hsplit] at this
    exact this
  · intro c tx prev h hlen hnd hne hsorted
    unfold CalculateUpdatedLotteryWinners CalculateUpdatedLotteryWinnersMaterialised
    by_cases h1 : h ≤ 0
    · rw [if_pos h1, if_pos h1]
    rw [if_neg h1, if_neg h1]
    by_cases h2 : c.IsValidLotteryBlockHeight h = true
    · rw [if_pos h2, if_pos h2]
    rw [if_neg h2, if_neg h2]
    by_cases h3 : h ≤ c.startOfLotteryBlocks_
    · rw [if_pos h3, if_pos h3]; rfl
    rw [if_neg h3, if_neg h3]
    cases he : IsCoinstakeValidForLottery c tx h with
    | none => rfl
    | some b =>
      cases b with
      | false => rfl
      | true =>
        cases hseed : GetLastLotteryBlockHashBeforeHeight c h with
        | none => rfl
        | some seed =>
          cases hp : (if tx.IsCoinBase then tx.vout[0]? else tx.vout[1]?) with
          | none => simp only [hp]
          | some payee =>
            simp only [hp, LotteryCoinstakeData.getLotteryCoinstakes,
              LotteryCoinstakeData.getShallowCopy]
            cases hf : (UpdateCoinstakes c seed
                (prev.coinstakes ++ [(tx.GetHash, payee.scriptPubKey)])).1 with
            | true => simp
            | false =>
              have := UpdateCoinstakes_snd_of_false c seed prev.coinstakes
                (tx.GetHash, payee.scriptPubKey) hlen
                (nodup_append_fresh _ _ hnd hne) (hsorted seed hseed) hf
              simp [this]

/-- The update-skip scenario: the 12-entry sequence of the example state and a
ticket of score 3 is left as its first 11 entries. -/
theorem skip_loses_nothing_witness :
    (UpdateCoinstakes exampleCalculator 7 (examplePrevious.coinstakes ++ [(3, [99])])).1 = false
    ∧ (UpdateCoinstakes exampleCalculator 7 (examplePrevious.coinstakes ++ [(3, [99])])).2
        = (examplePrevious.coinstakes ++ [(3, [99])]).take 11 :=
  ⟨by decide,
    skip_loses_nothing.1 exampleCalculator 7 (examplePrevious.coinstakes ++ [(3, [99])])
      (by decide) (by decide) (by decide) (by decide)⟩

/-- C18. The state is restamped exactly when the new ticket gets in: for every
call that reaches the ranking step (height positive, not a superblock height,
above the activation height, eligible transaction, seed resolved) with a
previous state of at most 11 entries whose ids are pairwise distinct and differ
from the id of the transaction, the returned entries contain an entry with the
id of the transaction if and only if `UpdateCoinstakes` returned true, in which
case the result is the current height with the ranked entries; with fewer than
11 previous entries this always holds and the result has exactly one entry more
than the previous state. -/
theorem restamp_iff_ticket_in (c : LotteryWinnersCalculator) (tx : CTransaction)
    (prev : LotteryCoinstakeData) (h : Int) (seed : uint256)
    (hpos : 0 < h) (hsb : c.IsValidLotteryBlockHeight h = false)
    (hact : c.startOfLotteryBlocks_ < h)
    (helig : IsCoinstakeValidForLottery c tx h = some true)
    (hseed : GetLastLotteryBlockHashBeforeHeight c h = some seed)
    (hlen : prev.coinstakes.length ≤ 11)
    (hnd : (prev.coinstakes.map Prod.fst).Nodup)
    (hne : ∀ e ∈ prev.coinstakes, e.1 ≠ tx.GetHash) :
    ∃ (payee : CTxOut) (s : LotteryCoinstakeData),
      (if tx.IsCoinBase then tx.vout[0]? else tx.vout[1]?) = some payee
      ∧ CalculateUpdatedLotteryWinners c tx prev h = some s
      ∧ ((∃ e ∈ s.coinstakes, e.1 = tx.GetHash)
          ↔ (UpdateCoinstakes c seed
              (prev.coinstakes ++ [(tx.GetHash, payee.scriptPubKey)])).1 = true)
      ∧ ((UpdateCoinstakes c seed
              (prev.coinstakes ++ [(tx.GetHash, payee.scriptPubKey)])).1 = true →
          s = ⟨h, (UpdateCoinstakes c seed
              (prev.coinstakes ++ [(tx.GetHash, payee.scriptPubKey)])).2⟩)
      ∧ ((UpdateCoinstakes c seed
              (prev.coinstakes ++ [(tx.GetHash, payee.scriptPubKey)])).1 = false → s = prev)
      ∧ (prev.coinstakes.length < 11 →
          (UpdateCoinstakes c seed
              (prev.coinstakes ++ [(tx.GetHash, payee.scriptPubKey)])).1 = true
          ∧ s.coinstakes.length = prev.coinstakes.length + 1) := by
  obtain ⟨payee, hp⟩ := payee_of_eligible c tx h helig
  have hnd2 := nodup_append_fresh _ (tx.GetHash, payee.scriptPubKey) hnd hne
  have hcalc := CalculateUpdatedLotteryWinners_ranking c tx prev h seed payee hpos hsb hact
    helig hseed hp
  cases hf : (UpdateCoinstakes c seed
      (prev.coinstakes ++ [(tx.GetHash, payee.scriptPubKey)])).1 with
  | true =>
    have hres : CalculateUpdatedLotteryWinners c tx prev h
        = some ⟨h, (UpdateCoinstakes c seed
            (prev.coinstakes ++ [(tx.GetHash, payee.scriptPubKey)])).2⟩ := by
      rw [hcalc, if_pos hf]
    refine ⟨payee, _, hp, hres, ?_, ?_, ?_, ?_⟩
    · constructor
      · intro _; exact hf
      · intro _
        exact ⟨_, UpdateCoinstakes_keeps_new c seed _ _ hlen hnd2 hf, rfl⟩
    · intro _; rfl
    · intro hc; rw [hf] at hc; cases hc
    · intro hlt
      refine ⟨hf, ?_⟩
      have hl : ¬ (prev.coinstakes ++ [(tx.GetHash, payee.scriptPubKey)]).length > 11 := by
        simp only [List.length_append, List.length_cons, List.length_nil]
        omega
      show (UpdateCoinstakes c seed
        (prev.coinstakes ++ [(tx.GetHash, payee.scriptPubKey)])).2.length = _
      rw [UpdateCoinstakes_snd, if_neg hl, sortByScore_length]
      simp
  | false =>
    have hres : CalculateUpdatedLotteryWinners c tx prev h = some prev := by
      rw [hcalc, if_neg (by rw [hf]; simp)]
    refine ⟨payee, prev, hp, hres, ?_, ?_, ?_, ?_⟩
    · constructor
      · rintro ⟨e, he, heq⟩
        exact absurd heq (hne e he)
      · intro hc; rw [hf] at hc; cases hc
    · intro hc; rw [hf] at hc; cases hc
    · intro _; rfl
    · intro hlt
      exfalso
      have := ((UpdateCoinstakes_fst_false_iff c seed _ _ hlen hnd2).1 hf).1
      omega

/-- The two scenarios of the spec on the example state of 11 entries: the ticket
of score 45 gets in and the state is restamped at 125. -/
theorem restamp_iff_ticket_in_witness :
    ∃ (payee : CTxOut) (s : LotteryCoinstakeData),
      (if (exampleCoinstake 45).IsCoinBase then (exampleCoinstake 45).vout[0]?
        else (exampleCoinstake 45).vout[1]?) = some payee
      ∧ CalculateUpdatedLotteryWinners exampleCalculator (exampleCoinstake 45) examplePrevious 125
          = some s
      ∧ ((∃ e ∈ s.coinstakes, e.1 = (exampleCoinstake 45).GetHash)
          ↔ (UpdateCoinstakes exampleCalculator 7
              (examplePrevious.coinstakes
                ++ [((exampleCoinstake 45).GetHash, payee.scriptPubKey)])).1 = true)
      ∧ ((UpdateCoinstakes exampleCalculator 7
              (examplePrevious.coinstakes
                ++ [((exampleCoinstake 45).GetHash, payee.scriptPubKey)])).1 = true →
          s = ⟨125, (UpdateCoinstakes exampleCalculator 7
              (examplePrevious.coinstakes
                ++ [((exampleCoinstake 45).GetHash, payee.scriptPubKey)])).2⟩)
      ∧ ((UpdateCoinstakes exampleCalculator 7
              (examplePrevious.coinstakes
                ++ [((exampleCoinstake 45).GetHash, payee.scriptPubKey)])).1 = false →
          s = examplePrevious)
      ∧ (examplePrevious.coinstakes.length < 11 →
          (UpdateCoinstakes exampleCalculator 7
              (examplePrevious.coinstakes
                ++ [((exampleCoinstake 45).GetHash, payee.scriptPubKey)])).1 = true
          ∧ s.coinstakes.length = examplePrevious.coinstakes.length + 1) :=
  restamp_iff_ticket_in exampleCalculator (exampleCoinstake 45) examplePrevious 125 7
    (by decide) (by decide) (by decide) (by decide) (by decide) (by decide) (by decide)
    (by decide)

end Divi
